import Mathlib

/-!
Verification of the style-translation core of a Figma-to-Tailwind plugin.

The development shallowly embeds the TypeScript functions of
`src/utils/styleUtils.ts` (class sanitizer), `src/utils/diffUtils.ts`
(variant differ), `src/services/variants/styleProcessor.ts` (variant style
extraction, class merging, nearest color token) and
`src/transformers/stylesToTailwind.ts` (style-to-utility compiler).

Strings are manipulated through their character lists so that every
definition evaluates by kernel reduction.  JavaScript `Array`/`Set`/object
operations are modelled by Lean lists: a `Set` accumulates first
occurrences in insertion order, an object literal is an association list
whose assignment overwrites in place.
-/

namespace FigmaTailwind

/-- A whitespace-free class token, as a character list. -/
abbrev Tok := List Char

/-- JS `str.split(sep)` for a one-character separator: splits at every
occurrence, producing empty pieces between adjacent separators. -/
def splitChar (c : Char) : List Char → List (List Char)
  | [] => [[]]
  | a :: as =>
    if a = c then [] :: splitChar c as
    else
      match splitChar c as with
      | [] => [[a]]
      | g :: gs => (a :: g) :: gs

/-- JS `array.join(sep)` for a one-character separator. -/
def joinChar (c : Char) : List (List Char) → List Char
  | [] => []
  | [t] => t
  | t :: ts => t ++ c :: joinChar c ts

/-- JS `array.join(' ')`. -/
def joinC : List Tok → List Char := joinChar ' '

/-- `classes.split(' ').filter(Boolean)` on the underlying characters. -/
def tokensC (s : List Char) : List Tok :=
  (splitChar ' ' s).filter (fun t => t ≠ ([] : List Char))

/-- JS `str.includes(pat)`: occurrence of `pat` as a contiguous substring. -/
def containsSeq (pat : List Char) : List Char → Bool
  | [] => pat.isEmpty
  | c :: cs => pat.isPrefixOf (c :: cs) || containsSeq pat cs

/-- JS `new Set(array)` iterated back out: first occurrences in insertion
order, with `seen` the elements already in the set. -/
def dedupSeen [DecidableEq α] (seen : List α) : List α → List α
  | [] => []
  | x :: xs => if x ∈ seen then dedupSeen seen xs else x :: dedupSeen (x :: seen) xs

/-- `Array.from(new Set(l))`. -/
def dedupFirst [DecidableEq α] (l : List α) : List α := dedupSeen [] l

/-- JS `str.toLowerCase()` on characters (ASCII case folding). -/
def lowerC (s : List Char) : List Char := s.map Char.toLower

/-- Index of the first element satisfying `p` (JS `array.findIndex`-style
lookups and first-matching-prefix scans). -/
def findIdxC (p : α → Bool) : List α → Option Nat
  | [] => none
  | a :: as => if p a then some 0 else (findIdxC p as).map (· + 1)

section ClassSanitizer

/-!
`cleanupTailwindClasses` of `src/utils/styleUtils.ts` (lines 4-83).

The source builds an object `prefixGroups` with keys
`bg- text- p- m- w- h- flex- rounded- bg-image`, pushes every class into
the first group whose key is a prefix (background-image classes are
special-cased into `bg-image`), truncates every group with more than one
member to its last member - except the `bg-` group when the `bg-image`
group is non-empty - and emits: `bg-image` group, the other groups in key
order, then the ungrouped classes, all in first-occurrence order.
-/

/-- The eight literal prefix keys of `prefixGroups`, in object-key order. -/
def cleanupPrefixes : List Tok :=
  ["bg-", "text-", "p-", "m-", "w-", "h-", "flex-", "rounded-"].map String.data

/-- `cls.includes('bg-[image:') || cls.includes('bg-[url(')`. -/
def isBgImageClass (cls : Tok) : Bool :=
  containsSeq "bg-[image:".data cls || containsSeq "bg-[url(".data cls

/-- The group a class is pushed into: `some 8` is the `bg-image` group,
`some i` (`i < 8`) the `i`-th prefix group, `none` means ungrouped. -/
def classifyC (cls : Tok) : Option Nat :=
  if isBgImageClass cls then some 8
  else findIdxC (fun p => p.isPrefixOf cls) cleanupPrefixes

/-- The contents of group `i` after the classification loop, given the
deduplicated class list `u`. -/
def groupOfC (u : List Tok) (i : Nat) : List Tok :=
  u.filter (fun c => classifyC c == some i)

/-- `if (group.length > 1) group = [group[group.length - 1]]`. -/
def keepLast (l : List Tok) : List Tok :=
  if l.length > 1 then
    match l.getLast? with
    | some x => [x]
    | none => []
  else l

/-- Group `i` after conflict resolution: the `bg-` group (index 0) is kept
whole when the `bg-image` group is non-empty, every other over-full group
is truncated to its last member. -/
def resolvedGroup (u : List Tok) (i : Nat) : List Tok :=
  if i = 0 ∧ groupOfC u 8 ≠ [] then groupOfC u 0
  else keepLast (groupOfC u i)

/-- The flattened class list emitted by `cleanupTailwindClasses`:
`bg-image` group first, the other groups in key order, then the ungrouped
classes. -/
def cleanOut (s : List Char) : List Tok :=
  let u := dedupFirst (tokensC s)
  resolvedGroup u 8 ++
    ((List.range 8).map (resolvedGroup u)).flatten ++
    u.filter (fun c => classifyC c == (none : Option Nat))

/-- The body of `cleanupTailwindClasses` on the character list. -/
def cleanCore (s : List Char) : List Char := joinC (cleanOut s)

/-- `cleanupTailwindClasses` of `src/utils/styleUtils.ts`. -/
def cleanupTailwindClasses (classes : String) : String :=
  if classes = "" then "" else String.mk (cleanCore classes.data)

end ClassSanitizer

section VariantDiffer

/-!  `diffTailwindClasses` of `src/utils/diffUtils.ts` (lines 51-58). -/

/-- The characters of the JS `\s` class that occur in class strings. -/
def isJsWhitespace (c : Char) : Bool :=
  c = ' ' || c = '\t' || c = '\n' || c = '\r' || c = '\x0b' || c = '\x0c'

/-- JS `str.split(/\s+/)` followed by `filter(Boolean)`: a `\s+` run and a
single whitespace character delimit the same non-empty tokens, so the
split is taken character by character before filtering. -/
def splitWsChar : List Char → List (List Char)
  | [] => [[]]
  | a :: as =>
    if isJsWhitespace a then [] :: splitWsChar as
    else
      match splitWsChar as with
      | [] => [[a]]
      | g :: gs => (a :: g) :: gs

/-- `classes.split(/\s+/).filter(Boolean)`. -/
def wsToks (s : String) : List Tok :=
  (splitWsChar s.data).filter (fun t => t ≠ ([] : List Char))

/-- The result record of `diffTailwindClasses`. -/
structure ClassesDiff where
  added : List Tok
  removed : List Tok
  unchanged : List Tok
deriving Repr, DecidableEq

/-- `diffTailwindClasses` of `src/utils/diffUtils.ts`. -/
def diffTailwindClasses (oldClasses newClasses : String) : ClassesDiff :=
  let oldArray := wsToks oldClasses
  let newArray := wsToks newClasses
  { added := newArray.filter (fun cls => !(oldArray.contains cls))
    removed := oldArray.filter (fun cls => !(newArray.contains cls))
    unchanged := oldArray.filter (fun cls => newArray.contains cls) }

end VariantDiffer

section StringOps

/-!  String-level wrappers used by the variant style processor. -/

/-- JS `s.split(c)` returning strings. -/
def splitS (c : Char) (s : String) : List String :=
  (splitChar c s.data).map String.mk

/-- JS `array.join(c)` for strings. -/
def joinWithS (c : Char) (l : List String) : String :=
  String.mk (joinChar c (l.map String.data))

/-- JS `array.join(' ')` for strings. -/
def joinS (l : List String) : String := joinWithS ' ' l

/-- `s.split(' ').filter(Boolean)` as strings. -/
def toksS (s : String) : List String :=
  (splitS ' ' s).filter (fun t => t ≠ "")

/-- JS `s.toLowerCase()`. -/
def lowerS (s : String) : String := String.mk (lowerC s.data)

/-- JS `s.includes(pat)`. -/
def containsS (s pat : String) : Bool := containsSeq pat.data s.data

/-- JS `s.startsWith(pat)`. -/
def startsWithS (s pat : String) : Bool := pat.data.isPrefixOf s.data

/-- JS `s.trim() !== ''`: some character survives trimming. -/
def trimNonempty (s : String) : Bool := s.data.any (fun c => !(isJsWhitespace c))

end StringOps

section VariantStyleProcessor

/-!
`extractVariantStyles`, `mergeUniqueClasses` and `findClosestColorToken`
of `src/services/variants/styleProcessor.ts`.

A `VariantStyleMap` (`Record<string, {tailwindClasses: string, ...}>`) is
modelled by an association list from variant key to the entry's
`tailwindClasses` string, and `allVariantProps` (`Record<string,
string[]>`) by an association list from property name to declared values.
JS object keys are distinct, so lookups take the first match.

The function writes each slot `variants[P][V]` through four sequential
stages that read only the inputs and the slot itself, so the embedding
computes each slot pointwise (`slotValue`) and assembles the object
(`extractVariantStyles`) from the initialization order.
-/

/-- One `part.split('=')` destructured as `const [key, value]` with the
`if (key && value)` guard, storing `key.toLowerCase()` (styleProcessor
lines 295-299 and 334-338). -/
def parsePair (part : String) : Option (String × String) :=
  match splitS '=' part with
  | k :: v :: _ => if k ≠ "" ∧ v ≠ "" then some (lowerS k, v) else none
  | _ => none

/-- JS object assignment `obj[k] = v`: overwrite in place, append new keys
at the end. -/
def objInsert (obj : List (String × String)) (k v : String) :
    List (String × String) :=
  match obj with
  | [] => [(k, v)]
  | e :: rest => if e.1 = k then (e.1, v) :: rest else e :: objInsert rest k v

/-- JS object read `obj[k]` (keys are unique by construction). -/
def objLookup (obj : List (String × String)) (k : String) : Option String :=
  match obj with
  | [] => none
  | e :: rest => if e.1 = k then some e.2 else objLookup rest k

/-- The `variantObj` parsed from a variant key such as
`"type=primary:state=default"`: split on `:`, split each part on `=`,
skip malformed pairs, and let later pairs overwrite earlier ones. -/
def variantObjOf (key : String) : List (String × String) :=
  (splitS ':' key).foldl
    (fun obj part =>
      match parsePair part with
      | some kv => objInsert obj kv.1 kv.2
      | none => obj) []

/-- The class string accumulated into slot `(P, V)` by the direct
extraction pass (lines 292-318): every variant whose parsed object binds
`P` to `V` and has a non-empty class string unions its classes in, with
`[...new Set([...existing, ...incoming])].join(' ')`. -/
def phase1Slot (styles : List (String × String)) (P V : String) : String :=
  styles.foldl
    (fun acc e =>
      if e.2 ≠ "" ∧ objLookup (variantObjOf e.1) P = some V then
        joinS (dedupFirst (toksS acc ++ toksS e.2))
      else acc) ""

/-- `styles[variantKey]`, surfacing the entry's `tailwindClasses`. -/
def styleLookup (styles : List (String × String)) (k : String) :
    Option String :=
  match styles.find? (fun e => e.1 == k) with
  | some e => some e.2
  | none => none

/-- The `variantsByValue[w]` bucket (lines 330-346): variant keys whose
parsed object binds `propKey.toLowerCase()` to `w`.  The source also
checks `propValues.includes(value)` when pushing: the bucket is only ever
read for declared values `w`, for which the check is the equality already
applied here. -/
def keysForValue (styles : List (String × String)) (pl w : String) :
    List String :=
  (styles.map Prod.fst).filter
    (fun k => objLookup (variantObjOf k) pl == some w)

/-- `variantStyle && variantStyle.tailwindClasses &&
variantStyle.tailwindClasses.includes(cls)` (lines 431-435 and 452-456):
note the *substring* containment on the raw class string. -/
def hasClassSub (styles : List (String × String)) (k cls : String) : Bool :=
  match styleLookup styles k with
  | some s => s ≠ "" && containsS s cls
  | none => false

/-- The `allClassesForThisValue` set (lines 403-411): tokens of every
variant for this value, first occurrences first (an empty class string
contributes no tokens, matching the source's truthiness guard). -/
def allClassesForValue (styles : List (String × String))
    (keys : List String) : List String :=
  dedupFirst ((keys.map (fun k =>
    match styleLookup styles k with
    | some s => toksS s
    | none => [])).flatten)

/-- The layout-class skip (lines 417-420): prefixes `flex grid col row
items- justify-` are excluded unless the class is exactly `flex-col` or
`flex-row`. -/
def layoutSkip (cls : String) : Bool :=
  (["flex", "grid", "col", "row", "items-", "justify-"].any
      (fun p => startsWithS cls p)) &&
  !(["flex-col", "flex-row"].any (fun sp => cls == sp))

/-- `appearsInAllVariantsWithThisValue` (lines 431-436). -/
def appearsInAllKeys (styles : List (String × String)) (keys : List String)
    (cls : String) : Bool :=
  keys.all (fun k => hasClassSub styles k cls)

/-- `appearsInOtherValues` (lines 441-463). -/
def appearsInOtherValues (styles : List (String × String)) (pl : String)
    (propValues : List String) (V cls : String) : Bool :=
  propValues.any (fun w =>
    w != V && (keysForValue styles pl w).any (fun k => hasClassSub styles k cls))

/-- The base-vs-variant classification scan (lines 397-470): the
`valueSpecificClasses` set in insertion order. -/
def scanResult (styles : List (String × String)) (pl : String)
    (propValues : List String) (V : String) (keys : List String) :
    List String :=
  (allClassesForValue styles keys).filter
    (fun cls =>
      if layoutSkip cls then false
      else if cls == "bg-transparent" then true
      else appearsInAllKeys styles keys cls &&
           !(appearsInOtherValues styles pl propValues V cls))

/-- `colorOptions` of the type/variant default branch (line 368). -/
def colorOptions : List String := ["gray", "primary", "secondary", "red", "green"]

/-- The fabricated default for `type`/`variant` properties with no
variants for the value (lines 364-372).  `List.indexOf` matches JS
`indexOf` on every input the caller produces (the value is declared, so
the index is in range). -/
def typeDefault (propValues : List String) (V : String) : String :=
  let propIndex := propValues.indexOf V
  let colorName := colorOptions.getD (propIndex % colorOptions.length) ""
  "bg-" ++ colorName ++ "-500 text-white"

/-- The fabricated default for `state` properties with no variants for the
value (lines 373-381); an unrecognized state leaves the slot unchanged
(empty). -/
def stateDefault (V : String) : String :=
  if containsS (lowerS V) "disabled" then "opacity-50 cursor-not-allowed"
  else if containsS (lowerS V) "hover" then "hover:opacity-80"
  else if containsS (lowerS V) "active" then "active:opacity-90"
  else ""

/-- `paddingValues` of the size default branch (line 386). -/
def paddingDefaults : List String := ["px-2 py-1", "px-3 py-2", "px-4 py-2", "px-6 py-3"]

/-- `fontSizes` of the size default branch (line 387). -/
def fontSizeDefaults : List String :=
  ["text-caption-regular", "text-body-2-regular", "text-body1-20-regular",
   "text-body1-24-regular"]

/-- The fabricated default for `size` properties with no variants for the
value (lines 382-391).  `Math.floor((i / (n-1)) * 3)` equals the natural
division `(i * 3) / (n - 1)` for the small in-range indices produced
here. -/
def sizeDefault (propValues : List String) (V : String) : String :=
  let propIndex := propValues.indexOf V
  let idx := if propValues.length > 1 then
      (propIndex * (paddingDefaults.length - 1)) / (propValues.length - 1)
    else 0
  paddingDefaults.getD idx "" ++ " " ++ fontSizeDefaults.getD idx ""

/-- The value of slot `variants[P][V]` after direct extraction and the
phase-2 pass: a slot with direct-extraction content is skipped; a value
with no variant keys receives the hardcoded type/state/size defaults
(lines 358-394); otherwise a non-empty scan result is joined in. -/
def slotAfterScan (styles : List (String × String)) (P : String)
    (propValues : List String) (V : String) : String :=
  if trimNonempty (phase1Slot styles P V) then phase1Slot styles P V
  else if (keysForValue styles (lowerS P) V).isEmpty then
    if lowerS P == "type" || lowerS P == "variant" then typeDefault propValues V
    else if lowerS P == "state" then stateDefault V
    else if lowerS P == "size" then sizeDefault propValues V
    else phase1Slot styles P V
  else
    if !(scanResult styles (lowerS P) propValues V
          (keysForValue styles (lowerS P) V)).isEmpty then
      joinS (scanResult styles (lowerS P) propValues V
          (keysForValue styles (lowerS P) V))
    else phase1Slot styles P V

/-- The final value of slot `variants[P][V]` of `extractVariantStyles`:
the phase-2 value, then the last-resort disabled-state default for slots
still empty (lines 480-492). -/
def slotValue (styles : List (String × String)) (P : String)
    (propValues : List String) (V : String) : String :=
  if !(trimNonempty (slotAfterScan styles P propValues V)) &&
      lowerS P == "state" && containsS (lowerS V) "disabled" then
    "opacity-50 cursor-not-allowed"
  else slotAfterScan styles P propValues V

/-- The token catalogs passed around as `DesignTokens` (unused by
`extractVariantStyles` itself). -/
structure DesignTokens where
  colors : List (String × String) := []
  typography : List (String × String) := []
  spacing : List (String × String) := []
  effects : List (String × String) := []
  borderRadius : List (String × String) := []

/-- `extractVariantStyles` (lines 264-495): the nested
`Record<string, Record<string, string>>` in initialization order, with
each slot's final value. -/
def extractVariantStyles (styles : List (String × String))
    (allVariantProps : List (String × List String)) (tokens : DesignTokens) :
    List (String × List (String × String)) :=
  allVariantProps.map (fun pv =>
    (pv.1, pv.2.map (fun v => (v, slotValue styles pv.1 pv.2 v))))

/-- Read slot `(P, V)` out of the result object. -/
def slotOf (m : List (String × List (String × String))) (P V : String) :
    Option String :=
  match m.find? (fun e => e.1 == P) with
  | some e =>
    match e.2.find? (fun w => w.1 == V) with
    | some w => some w.2
    | none => none
  | none => none

/-- The conflicting-prefix groups of `mergeUniqueClasses` (lines 549-556). -/
def mergePrefixGroups : List (List String) :=
  [["bg-"], ["text-"], ["w-"], ["h-"],
   ["p-", "px-", "py-", "pt-", "pr-", "pb-", "pl-"],
   ["m-", "mx-", "my-", "mt-", "mr-", "mb-", "ml-"]]

/-- `getClassGroupByPrefix` (lines 559-567), with the group named by its
index. -/
def getClassGroupByPrefix (cls : String) : Option Nat :=
  findIdxC (fun grp => grp.any (fun p => startsWithS cls p)) mergePrefixGroups

/-- The final contents of `classGroups[g]` in `mergeUniqueClasses`: each
new class of the group replaces the list, so any new class leaves exactly
the last one; otherwise the existing classes of the group remain. -/
def mergeFinalGroup (existingArray newClassArray : List String) (g : Nat) :
    List String :=
  match (newClassArray.filter (fun c => getClassGroupByPrefix c == some g)).getLast? with
  | some c => [c]
  | none => existingArray.filter (fun c => getClassGroupByPrefix c == some g)

/-- The classes of `arr` outside every conflicting group (the ones the
result `Set` receives directly). -/
def mergeNonConf (arr : List String) : List String :=
  arr.filter (fun c => getClassGroupByPrefix c == (none : Option Nat))

/-- The `classGroups` key creation order: first appearance of each group
across the existing then the new classes. -/
def mergeKeys (existingArray newClassArray : List String) : List Nat :=
  dedupFirst ((existingArray ++ newClassArray).filterMap getClassGroupByPrefix)

/-- `Object.values(classGroups)` reduced to the one kept (last) class per
group, in key creation order. -/
def mergeLasts (existingArray newClassArray : List String) : List String :=
  (mergeKeys existingArray newClassArray).filterMap
    (fun g => (mergeFinalGroup existingArray newClassArray g).getLast?)

/-- `mergeUniqueClasses` (lines 541-604): non-conflicting classes of both
inputs (first occurrences first), then the last member of each touched
conflicting group, in group-key creation order. -/
def mergeUniqueClasses (existing newClasses : String) : String :=
  joinS (dedupFirst
    (mergeNonConf (toksS existing) ++ mergeNonConf (toksS newClasses) ++
     mergeLasts (toksS existing) (toksS newClasses)))

end VariantStyleProcessor

section ColorQuantizer

/-!  `findClosestColorToken` of `src/services/variants/styleProcessor.ts`
(lines 651-689). -/

/-- The runtime type of a token's `value` field: a string or anything
else (the source skips non-string values with a `typeof` check). -/
inductive TokenVal where
  | str (s : String)
  | other
deriving Repr, DecidableEq

/-- `ColorToken` as consumed by `findClosestColorToken`. -/
structure ColorToken where
  value : TokenVal
deriving Repr, DecidableEq

/-- One hexadecimal digit. -/
def hexDigit (c : Char) : Option Nat :=
  if '0' ≤ c ∧ c ≤ '9' then some (c.toNat - '0'.toNat)
  else if 'a' ≤ c ∧ c ≤ 'f' then some (c.toNat - 'a'.toNat + 10)
  else if 'A' ≤ c ∧ c ≤ 'F' then some (c.toNat - 'A'.toNat + 10)
  else none

/-- Accumulate leading hexadecimal digits. -/
def parseHexAcc (acc : Nat) : List Char → Nat
  | [] => acc
  | c :: rest =>
    match hexDigit c with
    | some d => parseHexAcc (acc * 16 + d) rest
    | none => acc

/-- JS `parseInt(s, 16)`: the leading hexadecimal digits, `NaN` (`none`)
when the string starts with none. -/
def parseHex (s : List Char) : Option Nat :=
  match s with
  | [] => none
  | c :: rest =>
    match hexDigit c with
    | some d => some (parseHexAcc d rest)
    | none => none

/-- `parseInt(hex.substring(i, j), 16)`. -/
def hexField (s : String) (i j : Nat) : Option Nat :=
  parseHex ((s.data.drop i).take (j - i))

/-- The squared RGB distance between the input color and a token value on
the integer 0-255 scale.  The source divides every component by 255 and
compares square roots; both maps are strictly monotone, so the exact
normalized squared distance is `distSq / 255^2` and every comparison in
the source is reproduced on `distSq` directly.  `none` models the `NaN`
produced by an unparseable component, whose comparisons are all false. -/
def distSq (hexColor tokenValue : String) : Option Int :=
  match hexField hexColor 1 3, hexField hexColor 3 5, hexField hexColor 5 7,
        hexField tokenValue 1 3, hexField tokenValue 3 5, hexField tokenValue 5 7 with
  | some r1, some g1, some b1, some r2, some g2, some b2 =>
    some (((r1 : Int) - r2) ^ 2 + ((g1 : Int) - g2) ^ 2 + ((b1 : Int) - b2) ^ 2)
  | _, _, _, _, _, _ => none

/-- One iteration of the best-match loop: skip non-string and non-`#`
token values, skip `NaN` distances, keep the strictly closer candidate. -/
def closestStep (hexColor : String) (st : Option String × Option Int)
    (e : String × ColorToken) : Option String × Option Int :=
  match e.2.value with
  | TokenVal.other => st
  | TokenVal.str tv =>
    if startsWithS tv "#" then
      match distSq hexColor tv with
      | some d =>
        match st.2 with
        | none => (some e.1, some d)
        | some best => if d < best then (some e.1, some d) else st
      | none => st
    else st

/-- `findClosestColorToken`: best match under `bestDistance < 0.1` on the
normalized scale, which is exactly `100 * distSq < 65025` on the integer
scale (`0.1^2 = 65025/100 / 255^2`); `bestDistance` starts at `Infinity`
(`none`), for which the comparison is false. -/
def findClosestColorToken (hexColor : String)
    (colorTokens : List (String × ColorToken)) : Option String :=
  let st := colorTokens.foldl (closestStep hexColor) (none, none)
  match st.2 with
  | some best => if 100 * best < 65025 then st.1 else none
  | none => none

end ColorQuantizer

section CompilerHelpers

/-!
Helpers of `src/transformers/stylesToTailwind.ts` and the JS primitives
they use.  JS `parseInt`/`parseFloat` (`NaN` as `none`) and the regular
expressions of the source are modelled by structural scanners with the
same match semantics on every reachable input.
-/

/-- Digit accumulation for `parseInt` (leading digits, base 10). -/
def digitsVal (acc : Nat) : List Char → Nat
  | [] => acc
  | c :: cs => if c.isDigit then digitsVal (acc * 10 + (c.toNat - '0'.toNat)) cs else acc

/-- JS `parseInt(s)`: leading whitespace, optional sign, leading digits;
`NaN` (`none`) when no digit follows. -/
def parseIntJS (s : List Char) : Option Int :=
  match s.dropWhile isJsWhitespace with
  | [] => none
  | '-' :: rest =>
    match rest with
    | c :: _ => if c.isDigit then some (-(digitsVal 0 rest : Int)) else none
    | [] => none
  | '+' :: rest =>
    match rest with
    | c :: _ => if c.isDigit then some (digitsVal 0 rest : Int) else none
    | [] => none
  | c :: cs => if c.isDigit then some (digitsVal 0 (c :: cs) : Int) else none

/-- Value of a digit run read as the fractional part, in order. -/
def fracVal (scale : ℚ) : List Char → ℚ
  | [] => 0
  | c :: cs =>
    if c.isDigit then ((c.toNat - '0'.toNat : Nat) : ℚ) * scale + fracVal (scale / 10) cs
    else 0

/-- JS `parseFloat(s)` on the decimal forms the extractor produces
(optional sign, digits, optional fraction; exponents never occur). -/
def parseFloatJS (s : List Char) : Option ℚ :=
  let core := fun (t : List Char) =>
    let intPart := t.takeWhile Char.isDigit
    let rest := t.dropWhile Char.isDigit
    match rest with
    | '.' :: frac =>
      let fracPart := frac.takeWhile Char.isDigit
      if intPart = [] ∧ fracPart = [] then none
      else some ((digitsVal 0 intPart : ℚ) + fracVal (1 / 10) fracPart)
    | _ => if intPart = [] then none else some ((digitsVal 0 intPart : ℚ))
  match s.dropWhile isJsWhitespace with
  | '-' :: rest => (core rest).map (fun q => -q)
  | '+' :: rest => core rest
  | t => core t

/-- JS `Math.round`: round half towards positive infinity. -/
def ratRound (q : ℚ) : Int := ⌊q + 1 / 2⌋

/-- JS `s.trim()`. -/
def trimC (l : List Char) : List Char :=
  ((l.dropWhile isJsWhitespace).reverse.dropWhile isJsWhitespace).reverse

/-- JS `s.trim()` on strings. -/
def trimS (s : String) : String := String.mk (trimC s.data)

/-- `replace(/<run of p>+/g, r)`: each maximal run becomes one `r`. -/
def squashRuns (p : Char → Bool) (r : Char) : Bool → List Char → List Char
  | _, [] => []
  | inRun, c :: cs =>
    if p c then
      if inRun then squashRuns p r true cs else r :: squashRuns p r true cs
    else c :: squashRuns p r false cs

/-- `replace(/\s+/g, '-')` on strings. -/
def wsToDashS (s : String) : String :=
  String.mk (squashRuns isJsWhitespace '-' false s.data)

/-- Drop one leading `c` (the `^-` half of `replace(/^-|-$/g, '')`). -/
def dropOneLead (c : Char) : List Char → List Char
  | [] => []
  | x :: xs => if x = c then xs else x :: xs

/-- `styleNameToVariable` of `src/utils/nameUtils.ts`: lowercase, white
space runs to `-`, non-alphanumerics to `-`, dash runs collapsed, one
leading and one trailing dash stripped. -/
def styleNameToVariable (name : String) : String :=
  let step1 := lowerC name.data
  let step2 := squashRuns isJsWhitespace '-' false step1
  let step3 := step2.map (fun c =>
    if ('a' ≤ c ∧ c ≤ 'z') ∨ ('0' ≤ c ∧ c ≤ '9') ∨ c = '-' then c else '-')
  let step4 := squashRuns (fun c => c = '-') '-' false step3
  String.mk ((dropOneLead '-' ((dropOneLead '-' step4.reverse).reverse)).reverse.reverse)

/-- JS `s.replace(pat, '')` for a plain string pattern: remove the first
occurrence only. -/
def replaceOnce (pat : List Char) : List Char → List Char
  | [] => []
  | c :: cs =>
    if pat ≠ [] ∧ pat.isPrefixOf (c :: cs) then (c :: cs).drop pat.length
    else c :: replaceOnce pat cs

/-- `replace(/px/g, '')`: every occurrence of `px` removed, left to
right. -/
def stripPx : List Char → List Char
  | [] => []
  | 'p' :: 'x' :: rest => stripPx rest
  | c :: rest => c :: stripPx rest

/-- `split(/\s+/)` on a trimmed string: with no edge whitespace this is
the per-character split with empty interior pieces removed, and `[""]` on
the empty string. -/
def splitWsTrimmed (s : List Char) : List (List Char) :=
  if s = [] then [[]] else (splitWsChar s).filter (fun t => t ≠ ([] : List Char))

/-- The sides record produced by `parseSpacingShorthand`. -/
structure SpacingSides where
  top : String
  right : String
  bottom : String
  left : String
deriving Repr, DecidableEq

/-- `parseSpacingShorthand` (stylesToTailwind.ts lines 30-51). -/
def parseSpacingShorthand (value : String) : Option SpacingSides :=
  if value = "" then none
  else
    let values := (splitWsTrimmed (trimC (stripPx value.data))).map String.mk
    match values with
    | [a] => some ⟨a, a, a, a⟩
    | [a, b] => some ⟨a, b, a, b⟩
    | [a, b, c] => some ⟨a, b, c, b⟩
    | [a, b, c, d] => some ⟨a, b, c, d⟩
    | _ => none

/-- The fixed pixel-to-scale table of `pxToTailwindSpacing` (lines 58-83). -/
def spacingMap : List (Int × String) :=
  [(0, "0"), (1, "0.5"), (2, "0.5"), (3, "0.75"), (4, "1"), (6, "1.5"),
   (8, "2"), (10, "2.5"), (12, "3"), (14, "3.5"), (16, "4"), (20, "5"),
   (24, "6"), (28, "7"), (32, "8"), (36, "9"), (40, "10"), (44, "11"),
   (48, "12"), (56, "14"), (64, "16"), (72, "18"), (80, "20"), (96, "24")]

/-- `pxToTailwindSpacing` (lines 54-86): map the parsed pixel value
through the fixed table, else a bracketed arbitrary value (a `NaN` parse
misses the table). -/
def pxToTailwindSpacing (px : String) : String :=
  match parseIntJS px.data with
  | some v =>
    match (spacingMap.find? (fun e => e.1 == v)).map Prod.snd with
    | some s => s
    | none => "[" ++ px ++ "px]"
  | none => "[" ++ px ++ "px]"

/-- First match of `/(\d+)px/`: the first maximal digit run immediately
followed by `px` (a shorter sub-run is always followed by a digit, so
only maximal runs can match). -/
def matchDigitsPx : List Char → Option (List Char)
  | [] => none
  | c :: cs =>
    if c.isDigit then
      let run := (c :: cs).takeWhile Char.isDigit
      let rest := (c :: cs).dropWhile Char.isDigit
      if "px".data.isPrefixOf rest then some run else matchDigitsPx cs
    else matchDigitsPx cs

/-- First match of `/SystemGray\/(\d+)\/?(Light|Dark)?|SystemGray(\d+)/i`:
the digit capture of whichever alternative matches first. -/
def sysGrayCapture : List Char → Option (List Char)
  | [] => none
  | c :: cs =>
    if (lowerC ((c :: cs).take 11) == "systemgray/".data) &&
        (match (c :: cs).drop 11 with | d :: _ => d.isDigit | [] => false) then
      some (((c :: cs).drop 11).takeWhile Char.isDigit)
    else if (lowerC ((c :: cs).take 10) == "systemgray".data) &&
        (match (c :: cs).drop 10 with | d :: _ => d.isDigit | [] => false) then
      some (((c :: cs).drop 10).takeWhile Char.isDigit)
    else sysGrayCapture cs

/-- First match of `/var\(--color-([^)]+)\)/`: the non-empty capture
between the prefix and the closing parenthesis. -/
def varColorCapture : List Char → Option (List Char)
  | [] => none
  | c :: cs =>
    if "var(--color-".data.isPrefixOf (c :: cs) then
      let after := (c :: cs).drop 12
      let cap := after.takeWhile (fun x => x ≠ ')')
      if (cap != []) &&
          (match after.drop cap.length with | ')' :: _ => true | _ => false) then
        some cap
      else varColorCapture cs
    else varColorCapture cs

/-- `extractColorValue` (lines 89-112): a `var(--color-*)` reference
yields the variable name, everything else falls through to the raw
value. -/
def extractColorValue (value : String) : Option String :=
  if value = "" then none
  else if startsWithS value "var(--color-" then
    match varColorCapture value.data with
    | some nm => some (String.mk nm)
    | none => some value
  else some value

/-- The result of the host color parser `figma.util.rgba`, which the core
receives as an injected capability (the host API is an external
collaborator). -/
structure Rgba where
  r : ℚ
  g : ℚ
  b : ℚ
  a : ℚ
deriving Repr, DecidableEq

/-- `getRgba` (lines 173-185): format the parsed color, `null` on a parse
error (the `catch` branch).  Lean's numeral formatting stands in for JS's;
downstream only equality of two `getRgba` results is consumed, and both
formattings are injective on the parsed components. -/
def getRgba (figmaRgba : String → Option Rgba) (value : String) : Option String :=
  match figmaRgba value with
  | none => none
  | some c =>
    if c.a ≠ 1 then
      some ("rgba(" ++ toString c.r ++ ", " ++ toString c.g ++ ", " ++
        toString c.b ++ ", " ++ toString c.a ++ ")")
    else
      some ("rgb(" ++ toString c.r ++ ", " ++ toString c.g ++ ", " ++ toString c.b ++ ")")

/-- The token-catalog selector of `findMatchingToken`. -/
inductive TokenType where
  | colors
  | typography
  | spacing
  | effects
  | borderRadius
deriving Repr, DecidableEq

/-- `tokens[tokenType]`. -/
def catalogOf (tokens : DesignTokens) : TokenType → List (String × String)
  | TokenType.colors => tokens.colors
  | TokenType.typography => tokens.typography
  | TokenType.spacing => tokens.spacing
  | TokenType.effects => tokens.effects
  | TokenType.borderRadius => tokens.borderRadius

/-- The digit-triple groups of `/rgba?\(\s*(\d+)\s*,\s*(\d+)\s*,\s*(\d+)/`
at one position. -/
def rgbTripleAt (s : List Char) : Option (List Char × List Char × List Char) :=
  if "rgb".data.isPrefixOf s then
    match
      (match s.drop 3 with
       | 'a' :: '(' :: rest => some rest
       | '(' :: rest => some rest
       | _ => none) with
    | none => none
    | some r0 =>
      let r1 := r0.dropWhile isJsWhitespace
      let rd := r1.takeWhile Char.isDigit
      let r2 := r1.dropWhile Char.isDigit
      if rd = [] then none
      else
        match r2.dropWhile isJsWhitespace with
        | ',' :: r4 =>
          let r5 := r4.dropWhile isJsWhitespace
          let gd := r5.takeWhile Char.isDigit
          let r6 := r5.dropWhile Char.isDigit
          if gd = [] then none
          else
            match r6.dropWhile isJsWhitespace with
            | ',' :: r8 =>
              let r9 := r8.dropWhile isJsWhitespace
              let bd := r9.takeWhile Char.isDigit
              if bd = [] then none else some (rd, gd, bd)
            | _ => none
        | _ => none
  else none

/-- First match of the rgb-triple pattern anywhere in the string. -/
def matchRgbTriple : List Char → Option (List Char × List Char × List Char)
  | [] => none
  | c :: cs =>
    match rgbTripleAt (c :: cs) with
    | some r => some r
    | none => matchRgbTriple cs

/-- The scan of `findMatchingToken` over one catalog's entries. -/
def findTokenScan (figmaRgba : String → Option Rgba) (normalizedValue : String)
    (isColors : Bool) : List (String × String) → Option String
  | [] => none
  | (tokenName, tokenValue) :: rest =>
    let tokenNameNormalized := styleNameToVariable tokenName
    if isColors then
      let tokenValueLower := lowerS tokenValue
      if normalizedValue == tokenNameNormalized then some tokenNameNormalized
      else if wsToDashS normalizedValue == tokenNameNormalized then some tokenNameNormalized
      else if tokenValueLower != "" &&
          (getRgba figmaRgba tokenValueLower == getRgba figmaRgba normalizedValue) then
        some tokenNameNormalized
      else if startsWithS normalizedValue "rgb" then
        match matchRgbTriple normalizedValue.data with
        | some (r, g, b) =>
          if containsS tokenValueLower
              (lowerS ("rgb(" ++ String.mk r ++ "," ++ String.mk g ++ "," ++ String.mk b ++ ")")) ||
             containsS tokenValueLower
              (String.mk r ++ ", " ++ String.mk g ++ ", " ++ String.mk b) then
            some tokenNameNormalized
          else findTokenScan figmaRgba normalizedValue isColors rest
        | none => findTokenScan figmaRgba normalizedValue isColors rest
      else findTokenScan figmaRgba normalizedValue isColors rest
    else
      if normalizedValue == tokenNameNormalized ||
          wsToDashS normalizedValue == tokenNameNormalized then some tokenNameNormalized
      else findTokenScan figmaRgba normalizedValue isColors rest

/-- `findMatchingToken` (lines 217-278), with the host color parser
injected. -/
def findMatchingToken (figmaRgba : String → Option Rgba) (value : String)
    (tokenType : TokenType) (tokens : DesignTokens) : Option String :=
  if value = "" then none
  else findTokenScan figmaRgba (trimS (lowerS value))
    (match tokenType with | TokenType.colors => true | _ => false)
    (catalogOf tokens tokenType)

/-- `normalizeFlexValue` (lines 6-27): strip a `flex-` value prefix; the
`space-` and `start` special cases return the value unchanged. -/
def normalizeFlexValue (property value : String) : String :=
  if startsWithS value "flex-" then String.mk (value.data.drop 5) else value

/-- `mapRadiusToTailwind` (lines 188-208); the default tier is the empty
suffix, `null` at zero. -/
def mapRadiusToTailwind (radiusValue : Int) : Option String :=
  if radiusValue = 0 then none
  else if radiusValue ≤ 2 then some "sm"
  else if radiusValue ≤ 4 then some ""
  else if radiusValue ≤ 6 then some "md"
  else if radiusValue ≤ 8 then some "lg"
  else if radiusValue ≤ 12 then some "xl"
  else if radiusValue ≤ 16 then some "2xl"
  else if radiusValue ≤ 24 then some "3xl"
  else some "full"

end CompilerHelpers

section StyleCompiler

/-!
`stylesToTailwind` (stylesToTailwind.ts lines 280-865).  The imperative
body pushes classes into `tailwindClasses` and records handled properties
in the `addedProperties` set; the embedding threads the pair through one
function per property handler, in source order.
-/

/-- The `addedProperties` set (only these keys are ever added). -/
structure AddedProps where
  backgroundColor : Bool := false
  color : Bool := false
  opacity : Bool := false
  backgroundImage : Bool := false
  fontSize : Bool := false
  fontWeight : Bool := false
  borderRadius : Bool := false
deriving Repr, DecidableEq

/-- The `styleReferences` record. -/
structure StyleRefs where
  fill : Option String := none
  text : Option String := none
  effect : Option String := none
  stroke : Option String := none
deriving Repr, DecidableEq

/-- `StyleProperties`: the fields `stylesToTailwind` reads, every one
optional (`none` models an absent field). -/
structure StyleProperties where
  styleReferences : Option StyleRefs := none
  variableReferences : Option (List (String × String)) := none
  backgroundColor : Option String := none
  color : Option String := none
  opacity : Option String := none
  backgroundImage : Option String := none
  backgroundImageHash : Option String := none
  backgroundImageUrl : Option String := none
  backgroundSize : Option String := none
  backgroundPosition : Option String := none
  backgroundRepeat : Option String := none
  fontSize : Option String := none
  fontWeight : Option String := none
  width : Option String := none
  borderRadius : Option String := none
  topLeftRadius : Option String := none
  topRightRadius : Option String := none
  bottomLeftRadius : Option String := none
  bottomRightRadius : Option String := none
  height : Option String := none
  position : Option String := none
  layoutSizingVertical : Option String := none
  display : Option String := none
  flexDirection : Option String := none
  justifyContent : Option String := none
  alignItems : Option String := none
  alignSelf : Option String := none
  flexGrow : Option String := none
  overflow : Option String := none
  gap : Option String := none
  padding : Option String := none

/-- JS truthiness of an optional string field. -/
def truthy : Option String → Bool
  | some s => s != ""
  | none => false

/-- The value behind a field already checked truthy. -/
def optVal (o : Option String) : String := o.getD ""

/-- `styles.styleReferences?.fill`. -/
def fillRef (styles : StyleProperties) : Option String :=
  match styles.styleReferences with
  | some r => r.fill
  | none => none

/-- `styles.styleReferences?.text`. -/
def textRefOf (styles : StyleProperties) : Option String :=
  match styles.styleReferences with
  | some r => r.text
  | none => none

/-- `shouldAddBackgroundColor` with `skipImplicitBackgrounds` fixed true. -/
def shouldAddBackgroundColor (styles : StyleProperties) : Bool :=
  truthy (fillRef styles) || truthy styles.backgroundColor

/-- The running state: the `tailwindClasses` array and the set. -/
abbrev TwState := List String × AddedProps

/-- Transparent backgrounds (lines 303-307). -/
def twTransparent (styles : StyleProperties) (st : TwState) : TwState :=
  if (styles.backgroundColor == some "transparent") ||
      (truthy (fillRef styles) &&
        containsS (lowerS (optVal (fillRef styles))) "transparent") then
    (st.1 ++ ["bg-transparent"], {st.2 with backgroundColor := true})
  else st

/-- The fill style-reference handler (lines 315-367). -/
def twFillRef (figmaRgba : String → Option Rgba) (styles : StyleProperties)
    (tokens : DesignTokens) (fill : String) (st : TwState) : TwState :=
  let tokenName := styleNameToVariable fill
  let isTextToken := containsS tokenName "text-" || containsS fill "text" ||
      (truthy styles.color && !(truthy styles.backgroundColor))
  if (objLookup tokens.colors tokenName).isSome ||
      (objLookup tokens.colors fill).isSome then
    if isTextToken then
      (st.1 ++ ["text-" ++ String.mk (replaceOnce "text-".data tokenName.data)],
       {st.2 with color := true})
    else (st.1 ++ ["bg-" ++ tokenName], {st.2 with backgroundColor := true})
  else
    match findMatchingToken figmaRgba fill TokenType.colors tokens with
    | some colorMatch =>
      (st.1 ++ ["bg-" ++ colorMatch], {st.2 with backgroundColor := true})
    | none =>
      if containsS fill "SystemGray" then
        match sysGrayCapture fill.data with
        | some grayNum =>
          match parseIntJS grayNum with
          | some grayLevel =>
            (st.1 ++ ["bg-gray-" ++ toString (min (max (grayLevel * 100) 100) 900)],
             {st.2 with backgroundColor := true})
          | none => (st.1 ++ ["bg-gray-400"], {st.2 with backgroundColor := true})
        | none => (st.1 ++ ["bg-gray-400"], {st.2 with backgroundColor := true})
      else st

/-- The `styleReferences` block (lines 313-398): fill, then text,
effect and stroke references. -/
def twStyleRefs (figmaRgba : String → Option Rgba) (styles : StyleProperties)
    (tokens : DesignTokens) (st : TwState) : TwState :=
  match styles.styleReferences with
  | none => st
  | some refs =>
    let st1 :=
      if truthy refs.fill && shouldAddBackgroundColor styles then
        twFillRef figmaRgba styles tokens (optVal refs.fill) st
      else st
    let st2 :=
      if truthy refs.text then
        let tokenName := styleNameToVariable (optVal refs.text)
        if (objLookup tokens.typography tokenName).isSome ||
            (objLookup tokens.typography (optVal refs.text)).isSome then
          (st1.1 ++ ["font-" ++ tokenName, "text-" ++ tokenName,
                     "leading-" ++ tokenName, "tracking-" ++ tokenName], st1.2)
        else st1
      else st1
    let st3 :=
      if truthy refs.effect then
        let tokenName := styleNameToVariable (optVal refs.effect)
        if (objLookup tokens.effects tokenName).isSome ||
            (objLookup tokens.effects (optVal refs.effect)).isSome then
          (st2.1 ++ ["shadow-" ++ tokenName], st2.2)
        else st2
      else st2
    if truthy refs.stroke then
      let tokenName := styleNameToVariable (optVal refs.stroke)
      if (objLookup tokens.colors tokenName).isSome ||
          (objLookup tokens.colors (optVal refs.stroke)).isSome then
        (st3.1 ++ ["border-" ++ tokenName], st3.2)
      else st3
    else st3

/-- The `variableReferences` block (lines 401-441). -/
def twVarRefs (figmaRgba : String → Option Rgba) (styles : StyleProperties)
    (tokens : DesignTokens) (st : TwState) : TwState :=
  match styles.variableReferences with
  | none => st
  | some entries =>
    entries.foldl (fun st e =>
      let tokenName := styleNameToVariable e.1
      if (objLookup tokens.colors tokenName).isSome ||
          (objLookup tokens.colors e.1).isSome then
        let isTextToken := containsS tokenName "text-" || containsS e.1 "text" ||
            (truthy styles.color && !(truthy styles.backgroundColor))
        if isTextToken then
          (st.1 ++ ["text-" ++ String.mk (replaceOnce "text-".data tokenName.data)],
           {st.2 with color := true})
        else if shouldAddBackgroundColor styles && !st.2.backgroundColor then
          (st.1 ++ ["bg-" ++ tokenName], {st.2 with backgroundColor := true})
        else st
      else if (objLookup tokens.spacing tokenName).isSome ||
          (objLookup tokens.spacing e.1).isSome then
        (st.1 ++ ["space-" ++ tokenName], st.2)
      else if (objLookup tokens.typography tokenName).isSome ||
          (objLookup tokens.typography e.1).isSome then
        (st.1 ++ ["font-" ++ tokenName, "text-" ++ tokenName,
                  "leading-" ++ tokenName, "tracking-" ++ tokenName], st.2)
      else st) st

/-- The raw background color fallback (lines 445-463). -/
def twRawBg (figmaRgba : String → Option Rgba) (styles : StyleProperties)
    (tokens : DesignTokens) (st : TwState) : TwState :=
  if !st.2.backgroundColor && shouldAddBackgroundColor styles &&
      truthy styles.backgroundColor then
    if styles.backgroundColor == some "transparent" then
      (st.1 ++ ["bg-transparent"], {st.2 with backgroundColor := true})
    else
      let bg := optVal styles.backgroundColor
      match
        (if (extractColorValue bg).isSome then
          findMatchingToken figmaRgba bg TokenType.colors tokens
        else none) with
      | some t => (st.1 ++ ["bg-" ++ t], {st.2 with backgroundColor := true})
      | none => (st.1 ++ ["bg-[" ++ bg ++ "]"], {st.2 with backgroundColor := true})
  else st

/-- The opacity bucketing handler (lines 466-492). -/
def twOpacity (styles : StyleProperties) (st : TwState) : TwState :=
  if truthy styles.opacity && !st.2.opacity then
    match parseFloatJS (optVal styles.opacity).data with
    | none => st
    | some q =>
      let opacityPercent := ratRound (q * 100)
      let tailwindOpacity : Int :=
        if opacityPercent ≤ 5 then 0
        else if opacityPercent ≤ 15 then 10
        else if opacityPercent ≤ 25 then 20
        else if opacityPercent ≤ 35 then 30
        else if opacityPercent ≤ 45 then 40
        else if opacityPercent ≤ 55 then 50
        else if opacityPercent ≤ 65 then 60
        else if opacityPercent ≤ 75 then 70
        else if opacityPercent ≤ 85 then 80
        else if opacityPercent ≤ 95 then 90
        else 100
      if tailwindOpacity < 100 then
        (st.1 ++ ["opacity-" ++ toString tailwindOpacity], {st.2 with opacity := true})
      else st
  else st

/-- The background image handler (lines 495-545). -/
def twBgImage (styles : StyleProperties) (st : TwState) : TwState :=
  if truthy styles.backgroundImage && !st.2.backgroundImage then
    if truthy styles.backgroundImageHash then
      let cs1 := st.1 ++
        ["bg-[image:var(--img-" ++ optVal styles.backgroundImageHash ++ ")]"]
      let cs2 := if truthy styles.backgroundSize then
          cs1 ++ ["bg-" ++ optVal styles.backgroundSize] else cs1 ++ ["bg-cover"]
      let cs3 := if truthy styles.backgroundPosition then
          cs2 ++ ["bg-" ++ optVal styles.backgroundPosition] else cs2
      let cs4 := if truthy styles.backgroundRepeat then
          cs3 ++ ["bg-" ++ optVal styles.backgroundRepeat] else cs3 ++ ["bg-no-repeat"]
      (cs4, {st.2 with backgroundImage := true})
    else if truthy styles.backgroundImageUrl then
      let cs1 := st.1 ++ ["bg-[url('" ++ optVal styles.backgroundImageUrl ++ "')]"]
      let cs2 := if truthy styles.backgroundSize then
          cs1 ++ ["bg-" ++ optVal styles.backgroundSize] else cs1
      let cs3 := if truthy styles.backgroundPosition then
          cs2 ++ ["bg-" ++ optVal styles.backgroundPosition] else cs2
      let cs4 := if truthy styles.backgroundRepeat then
          cs3 ++ ["bg-" ++ optVal styles.backgroundRepeat] else cs3 ++ ["bg-no-repeat"]
      (cs4, {st.2 with backgroundImage := true})
    else st
  else st

/-- The font-size class table (lines 573-586). -/
def sizeClassMap : List (Int × String) :=
  [(12, "text-xs"), (14, "text-sm"), (16, "text-base"), (18, "text-lg"),
   (20, "text-xl"), (24, "text-2xl"), (30, "text-3xl"), (36, "text-4xl"),
   (48, "text-5xl"), (60, "text-6xl"), (72, "text-7xl"), (96, "text-8xl")]

/-- The font-weight table (lines 607-617). -/
def weightMap : List (String × String) :=
  [("100", "font-thin"), ("200", "font-extralight"), ("300", "font-light"),
   ("400", "font-normal"), ("500", "font-medium"), ("600", "font-semibold"),
   ("700", "font-bold"), ("800", "font-extrabold"), ("900", "font-black")]

/-- The typography-token fallback of the font-size handler (lines 592-600). -/
def twFontSizeFallback (figmaRgba : String → Option Rgba) (tokens : DesignTokens)
    (fsStr : String) (st : TwState) : TwState :=
  match findMatchingToken figmaRgba fsStr TokenType.typography tokens with
  | some t => (st.1 ++ ["text-" ++ t], {st.2 with fontSize := true})
  | none => (st.1 ++ ["text-[" ++ fsStr ++ "]"], {st.2 with fontSize := true})

/-- The text block (lines 547-627): color, font size and font weight,
skipped entirely when a text style reference exists. -/
def twTextBlock (figmaRgba : String → Option Rgba) (styles : StyleProperties)
    (tokens : DesignTokens) (st : TwState) : TwState :=
  if truthy (textRefOf styles) then st
  else
    let st1 :=
      if truthy styles.color && !st.2.color then
        let colorStr := optVal styles.color
        match
          (if (extractColorValue colorStr).isSome then
            findMatchingToken figmaRgba colorStr TokenType.colors tokens
          else none) with
        | some t => (st.1 ++ ["text-" ++ t], {st.2 with color := true})
        | none =>
          match findMatchingToken figmaRgba colorStr TokenType.colors tokens with
          | some t => (st.1 ++ ["text-" ++ t], {st.2 with color := true})
          | none => (st.1 ++ ["text-[" ++ colorStr ++ "]"], {st.2 with color := true})
      else st
    let st2 :=
      if truthy styles.fontSize && !st1.2.fontSize then
        let fsStr := optVal styles.fontSize
        match parseIntJS fsStr.data with
        | some size =>
          let closest := [(14 : Int), 16, 18, 20, 24, 30, 36, 48, 60, 72, 96].foldl
            (fun prev curr =>
              if (curr - size).natAbs < (prev - size).natAbs then curr else prev) 12
          if (closest - size).natAbs ≤ 2 then
            match (sizeClassMap.find? (fun e => e.1 == closest)).map Prod.snd with
            | some cls => (st1.1 ++ [cls], {st1.2 with fontSize := true})
            | none => twFontSizeFallback figmaRgba tokens fsStr st1
          else twFontSizeFallback figmaRgba tokens fsStr st1
        | none => twFontSizeFallback figmaRgba tokens fsStr st1
      else st1
    if truthy styles.fontWeight && !st2.2.fontWeight then
      let fw := optVal styles.fontWeight
      match (weightMap.find? (fun e => e.1 == fw)).map Prod.snd with
      | some w => (st2.1 ++ [w], {st2.2 with fontWeight := true})
      | none => (st2.1 ++ ["font-[" ++ fw ++ "]"], {st2.2 with fontWeight := true})
    else st2

/-- The width handler (lines 630-642). -/
def twWidth (figmaRgba : String → Option Rgba) (styles : StyleProperties)
    (tokens : DesignTokens) (st : TwState) : TwState :=
  if truthy styles.width then
    if styles.width == some "100%" then (st.1 ++ ["w-full"], st.2)
    else
      match findMatchingToken figmaRgba (optVal styles.width) TokenType.spacing tokens with
      | some t => (st.1 ++ ["w-" ++ t], st.2)
      | none => (st.1 ++ ["w-[" ++ optVal styles.width ++ "]"], st.2)
  else st

/-- The border-radius handler (lines 645-690). -/
def twBorderRadius (figmaRgba : String → Option Rgba) (styles : StyleProperties)
    (tokens : DesignTokens) (st : TwState) : TwState :=
  if truthy styles.borderRadius && !st.2.borderRadius then
    let br := optVal styles.borderRadius
    match findMatchingToken figmaRgba br TokenType.borderRadius tokens with
    | some t => (st.1 ++ ["rounded-" ++ t], {st.2 with borderRadius := true})
    | none =>
      match matchDigitsPx br.data with
      | some digits =>
        let radiusValue := (parseIntJS digits).getD 0
        if radiusValue > 0 then
          let cls :=
            if radiusValue ≤ 2 then "rounded-sm"
            else if radiusValue ≤ 4 then "rounded"
            else if radiusValue ≤ 6 then "rounded-md"
            else if radiusValue ≤ 8 then "rounded-lg"
            else if radiusValue ≤ 12 then "rounded-xl"
            else if radiusValue ≤ 16 then "rounded-2xl"
            else if radiusValue ≤ 24 then "rounded-3xl"
            else "rounded-full"
          (st.1 ++ [cls], {st.2 with borderRadius := true})
        else st
      | none =>
        if containsS br " " then
          if ((splitS ' ' br).map (fun v => parseIntJS v.data)).any
              (fun v => match v with | some n => n > 0 | none => false) then
            (st.1 ++ ["rounded-[" ++ br ++ "]"], {st.2 with borderRadius := true})
          else st
        else if br != "0" && br != "0px" then
          (st.1 ++ ["rounded-[" ++ br ++ "]"], {st.2 with borderRadius := true})
        else st
  else st

/-- One corner of the individual-radii handler: the tier class is pushed
only when `mapRadiusToTailwind` yields a truthy (non-empty) suffix. -/
def twCorner (field : Option String) (sfx : String) (st : TwState) : TwState :=
  if truthy field then
    match matchDigitsPx (optVal field).data with
    | some digits =>
      let v := (parseIntJS digits).getD 0
      if v > 0 then
        match mapRadiusToTailwind v with
        | some r =>
          if r != "" then (st.1 ++ ["rounded-" ++ sfx ++ "-" ++ r], st.2) else st
        | none => st
      else st
    | none => st
  else st

/-- The individual corner radii handler (lines 693-754). -/
def twCornerRadii (styles : StyleProperties) (st : TwState) : TwState :=
  if !st.2.borderRadius then
    if truthy styles.topLeftRadius || truthy styles.topRightRadius ||
        truthy styles.bottomLeftRadius || truthy styles.bottomRightRadius then
      let st4 := twCorner styles.bottomRightRadius "br"
        (twCorner styles.bottomLeftRadius "bl"
          (twCorner styles.topRightRadius "tr"
            (twCorner styles.topLeftRadius "tl" st)))
      if st4.1.any (fun cls => startsWithS cls "rounded-") then
        (st4.1, {st4.2 with borderRadius := true})
      else st4
    else st
  else st

/-- The height handler (lines 756-779). -/
def twHeight (figmaRgba : String → Option Rgba) (styles : StyleProperties)
    (tokens : DesignTokens) (st : TwState) : TwState :=
  if truthy styles.height then
    if styles.height == some "100%" then (st.1 ++ ["h-full"], st.2)
    else if styles.position == some "absolute" then
      match findMatchingToken figmaRgba (optVal styles.height) TokenType.spacing tokens with
      | some t => (st.1 ++ ["h-" ++ t], st.2)
      | none => (st.1 ++ ["h-[" ++ optVal styles.height ++ "]"], st.2)
    else if styles.layoutSizingVertical == some "FIXED" then
      match findMatchingToken figmaRgba (optVal styles.height) TokenType.spacing tokens with
      | some t => (st.1 ++ ["h-" ++ t], st.2)
      | none => (st.1 ++ ["h-[" ++ optVal styles.height ++ "]"], st.2)
    else st
  else st

/-- Display, flex direction, alignment, grow, overflow (lines 781-817). -/
def twLayout (styles : StyleProperties) (st : TwState) : TwState :=
  let s1 := if truthy styles.display then
      (st.1 ++ [if styles.display == some "flex" then "flex" else "block"], st.2)
    else st
  let s2 := if truthy styles.flexDirection then
      (s1.1 ++ [if styles.flexDirection == some "row" then "flex-row" else "flex-col"], s1.2)
    else s1
  let s3 := if truthy styles.justifyContent then
      (s2.1 ++ ["justify-" ++
        normalizeFlexValue "justifyContent" (optVal styles.justifyContent)], s2.2)
    else s2
  let s4 := if truthy styles.alignItems then
      (s3.1 ++ ["items-" ++ normalizeFlexValue "alignItems" (optVal styles.alignItems)], s3.2)
    else s3
  let s5 := if truthy styles.alignSelf then
      (s4.1 ++ ["self-" ++ normalizeFlexValue "alignSelf" (optVal styles.alignSelf)], s4.2)
    else s4
  let s6 := if truthy styles.flexGrow then
      (s5.1 ++ [match parseIntJS (optVal styles.flexGrow).data with
        | some 1 => "grow"
        | some 0 => "grow-0"
        | some n => "grow-[" ++ toString n ++ "]"
        | none => "grow-[NaN]"], s5.2)
    else s5
  if truthy styles.overflow then
    (s6.1 ++ ["overflow-" ++ optVal styles.overflow], s6.2)
  else s6

/-- The gap handler (lines 819-834). -/
def twGap (figmaRgba : String → Option Rgba) (styles : StyleProperties)
    (tokens : DesignTokens) (st : TwState) : TwState :=
  if truthy styles.gap then
    match findMatchingToken figmaRgba (optVal styles.gap) TokenType.spacing tokens with
    | some t => (st.1 ++ ["gap-" ++ t], st.2)
    | none =>
      match matchDigitsPx (optVal styles.gap).data with
      | some digits =>
        (st.1 ++ ["gap-" ++ pxToTailwindSpacing (toString ((parseIntJS digits).getD 0))], st.2)
      | none => (st.1 ++ ["gap-[" ++ optVal styles.gap ++ "]"], st.2)
  else st

/-- The padding handler (lines 836-859): a spacing token wins; otherwise
an all-equal parsed shorthand emits one unified `p-` class and any other
parse emits four directional classes. -/
def twPadding (figmaRgba : String → Option Rgba) (styles : StyleProperties)
    (tokens : DesignTokens) (st : TwState) : TwState :=
  if truthy styles.padding then
    match findMatchingToken figmaRgba (optVal styles.padding) TokenType.spacing tokens with
    | some t => (st.1 ++ ["p-" ++ t], st.2)
    | none =>
      match parseSpacingShorthand (optVal styles.padding) with
      | some sides =>
        if sides.top == sides.right && sides.right == sides.bottom &&
            sides.bottom == sides.left then
          (st.1 ++ ["p-" ++ pxToTailwindSpacing sides.top], st.2)
        else
          (st.1 ++ ["pt-" ++ pxToTailwindSpacing sides.top,
                    "pr-" ++ pxToTailwindSpacing sides.right,
                    "pb-" ++ pxToTailwindSpacing sides.bottom,
                    "pl-" ++ pxToTailwindSpacing sides.left], st.2)
      | none => st
  else st

/-- The unique-prefix list of `removeDuplicateAndConflictingClasses`
(lines 873-876). -/
def uniquePfxList : List String :=
  ["bg-", "text-", "w-", "h-", "p-", "px-", "py-", "pt-", "pr-", "pb-", "pl-",
   "m-", "mx-", "my-", "mt-", "mr-", "mb-", "ml-", "rounded-", "border-", "flex-"]

/-- `removeDuplicateAndConflictingClasses` (lines 868-911).  The
`noDefaultBackgrounds` filter of the source returns true on every path,
so it keeps the list unchanged; the second pass keeps the first class of
each unique prefix. -/
def removeDuplicateAndConflictingClasses (classes : List String) : List String :=
  (classes.foldl (fun (st : List String × List String) cls =>
    match uniquePfxList.find? (fun p => startsWithS cls p) with
    | some pfx => if st.2.contains pfx then st else (st.1 ++ [cls], st.2 ++ [pfx])
    | none => (st.1 ++ [cls], st.2)) ([], [])).1

/-- `stylesToTailwind` (lines 280-865), the handlers applied in source
order to the empty state, with the host color parser injected. -/
def stylesToTailwind (figmaRgba : String → Option Rgba)
    (styles : StyleProperties) (tokens : DesignTokens) : String :=
  joinS (removeDuplicateAndConflictingClasses
    (twPadding figmaRgba styles tokens
      (twGap figmaRgba styles tokens
        (twLayout styles
          (twHeight figmaRgba styles tokens
            (twCornerRadii styles
              (twBorderRadius figmaRgba styles tokens
                (twWidth figmaRgba styles tokens
                  (twTextBlock figmaRgba styles tokens
                    (twBgImage styles
                      (twOpacity styles
                        (twRawBg figmaRgba styles tokens
                          (twVarRefs figmaRgba styles tokens
                            (twStyleRefs figmaRgba styles tokens
                              (twTransparent styles ([], {}))))))))))))))).1)

end StyleCompiler

section TokenizerLemmas

theorem splitChar_exists_cons (c : Char) (s : List Char) :
    ∃ g gs, splitChar c s = g :: gs := by
  induction s with
  | nil => exact ⟨[], [], rfl⟩
  | cons a as ih =>
    obtain ⟨g, gs, hg⟩ := ih
    by_cases hac : a = c
    · exact ⟨[], splitChar c as, by simp [splitChar, hac]⟩
    · exact ⟨a :: g, gs, by simp [splitChar, hac, hg]⟩

theorem sep_not_mem_of_mem_splitChar (c : Char) (s : List Char) :
    ∀ t ∈ splitChar c s, c ∉ t := by
  induction s with
  | nil =>
    intro t ht
    simp only [splitChar, List.mem_singleton] at ht
    simp [ht]
  | cons a as ih =>
    intro t ht
    simp only [splitChar] at ht
    by_cases hac : a = c
    · simp only [if_pos hac] at ht
      rcases List.mem_cons.mp ht with rfl | h
      · simp
      · exact ih t h
    · simp only [if_neg hac] at ht
      obtain ⟨g, gs, hg⟩ := splitChar_exists_cons c as
      rw [hg] at ht
      rcases List.mem_cons.mp ht with rfl | h
      · intro hmem
        rcases List.mem_cons.mp hmem with h1 | h1
        · exact hac h1.symm
        · exact ih g (by simp [hg]) h1
      · exact ih t (by simp [hg, h])

theorem splitChar_of_not_mem (c : Char) (s : List Char) (h : c ∉ s) :
    splitChar c s = [s] := by
  induction s with
  | nil => rfl
  | cons a as ih =>
    have hac : a ≠ c := fun hh => h (by simp [hh])
    have has : c ∉ as := fun hh => h (by simp [hh])
    simp [splitChar, hac, ih has]

theorem splitChar_append (c : Char) (xs ys : List Char) (h : c ∉ xs) :
    splitChar c (xs ++ c :: ys) = xs :: splitChar c ys := by
  induction xs with
  | nil => simp [splitChar]
  | cons a as ih =>
    have hac : a ≠ c := fun hh => h (by simp [hh])
    have has : c ∉ as := fun hh => h (by simp [hh])
    simp [splitChar, hac, ih has]

theorem good_of_mem_tokensC (s : List Char) (t : Tok) (ht : t ∈ tokensC s) :
    t ≠ [] ∧ ' ' ∉ t := by
  have h := List.mem_filter.mp ht
  refine ⟨by simpa using h.2, ?_⟩
  exact sep_not_mem_of_mem_splitChar ' ' s t h.1

theorem tokensC_joinC (L : List Tok) (h : ∀ t ∈ L, t ≠ [] ∧ ' ' ∉ t) :
    tokensC (joinC L) = L := by
  induction L with
  | nil => rfl
  | cons t ts ih =>
    obtain ⟨ht, hsp⟩ := h t (by simp)
    cases ts with
    | nil =>
      show tokensC (joinChar ' ' [t]) = [t]
      unfold joinChar tokensC
      rw [splitChar_of_not_mem ' ' t hsp]
      simp [ht]
    | cons t2 ts2 =>
      have hrest : ∀ x ∈ t2 :: ts2, x ≠ [] ∧ ' ' ∉ x := fun x hx => h x (by simp [hx])
      have ihr := ih hrest
      show tokensC (t ++ ' ' :: joinChar ' ' (t2 :: ts2)) = t :: t2 :: ts2
      unfold tokensC
      rw [splitChar_append ' ' t _ hsp]
      rw [List.filter_cons, if_pos (by simp [ht])]
      unfold tokensC at ihr
      show t :: List.filter _ (splitChar ' ' (joinC (t2 :: ts2))) = t :: t2 :: ts2
      rw [ihr]

theorem mem_dedupSeen [DecidableEq α] (seen : List α) (l : List α) (x : α) :
    x ∈ dedupSeen seen l ↔ x ∈ l ∧ x ∉ seen := by
  induction l generalizing seen with
  | nil => simp [dedupSeen]
  | cons a as ih =>
    simp only [dedupSeen]
    by_cases ha : a ∈ seen
    · rw [if_pos ha, ih]
      constructor
      · rintro ⟨h1, h2⟩
        exact ⟨by simp [h1], h2⟩
      · rintro ⟨h1, h2⟩
        rcases List.mem_cons.mp h1 with rfl | h1
        · exact absurd ha h2
        · exact ⟨h1, h2⟩
    · rw [if_neg ha]
      constructor
      · intro hx
        rcases List.mem_cons.mp hx with rfl | hx
        · exact ⟨by simp, ha⟩
        · have := (ih (a :: seen)).mp hx
          exact ⟨by simp [this.1], fun hh => this.2 (by simp [hh])⟩
      · rintro ⟨h1, h2⟩
        rcases List.mem_cons.mp h1 with rfl | h1
        · simp
        · by_cases hxa : x = a
          · simp [hxa]
          · exact List.mem_cons_of_mem _ ((ih (a :: seen)).mpr
              ⟨h1, by simp [hxa, h2]⟩)

theorem nodup_dedupSeen [DecidableEq α] (seen : List α) (l : List α) :
    (dedupSeen seen l).Nodup := by
  induction l generalizing seen with
  | nil => exact List.nodup_nil
  | cons a as ih =>
    simp only [dedupSeen]
    by_cases ha : a ∈ seen
    · rw [if_pos ha]; exact ih seen
    · rw [if_neg ha]
      refine List.nodup_cons.mpr ⟨?_, ih (a :: seen)⟩
      intro hmem
      exact ((mem_dedupSeen _ _ _).mp hmem).2 (by simp)

theorem dedupSeen_eq_self [DecidableEq α] (seen : List α) (l : List α)
    (hn : l.Nodup) (hd : ∀ x ∈ l, x ∉ seen) : dedupSeen seen l = l := by
  induction l generalizing seen with
  | nil => rfl
  | cons a as ih =>
    simp only [dedupSeen, if_neg (hd a (by simp))]
    have hn2 := List.nodup_cons.mp hn
    congr 1
    refine ih (a :: seen) hn2.2 ?_
    intro x hx
    intro hmem
    rcases List.mem_cons.mp hmem with rfl | hmem
    · exact hn2.1 hx
    · exact hd x (by simp [hx]) hmem

theorem mem_dedupFirst [DecidableEq α] (l : List α) (x : α) :
    x ∈ dedupFirst l ↔ x ∈ l := by
  rw [dedupFirst, mem_dedupSeen]
  simp

theorem nodup_dedupFirst [DecidableEq α] (l : List α) : (dedupFirst l).Nodup :=
  nodup_dedupSeen [] l

theorem dedupFirst_eq_self [DecidableEq α] (l : List α) (hn : l.Nodup) :
    dedupFirst l = l :=
  dedupSeen_eq_self [] l hn (by simp)

theorem findIdxC_lt_length (p : α → Bool) (l : List α) (i : Nat)
    (h : findIdxC p l = some i) : i < l.length := by
  induction l generalizing i with
  | nil => simp [findIdxC] at h
  | cons a as ih =>
    simp only [findIdxC] at h
    by_cases hpa : p a
    · rw [if_pos hpa] at h
      injection h with h
      subst h
      simp
    · rw [if_neg hpa] at h
      cases hrec : findIdxC p as with
      | none => rw [hrec] at h; simp at h
      | some j =>
        rw [hrec] at h
        simp at h
        have := ih j hrec
        simp only [List.length_cons]
        omega

end TokenizerLemmas

section SanitizerLemmas

theorem length_keepLast_le (l : List Tok) : (keepLast l).length ≤ 1 := by
  unfold keepLast
  by_cases h : l.length > 1
  · rw [if_pos h]
    cases hl : l.getLast? <;> simp
  · rw [if_neg h]; omega

theorem keepLast_of_short (l : List Tok) (h : l.length ≤ 1) : keepLast l = l := by
  unfold keepLast
  rw [if_neg (by omega)]

theorem keepLast_keepLast (l : List Tok) : keepLast (keepLast l) = keepLast l :=
  keepLast_of_short _ (length_keepLast_le l)

theorem keepLast_eq_nil_iff (l : List Tok) : keepLast l = [] ↔ l = [] := by
  unfold keepLast
  by_cases h : l.length > 1
  · rw [if_pos h]
    cases hl : l.getLast? with
    | none =>
      rw [List.getLast?_eq_none_iff] at hl
      subst hl; simp at h
    | some x =>
      simp only [List.cons_ne_self]
      constructor
      · intro hh; exact absurd hh (by simp)
      · intro hh; subst hh; simp at h
  · rw [if_neg h]

theorem mem_keepLast (l : List Tok) (x : Tok) (hx : x ∈ keepLast l) : x ∈ l := by
  unfold keepLast at hx
  by_cases h : l.length > 1
  · rw [if_pos h] at hx
    cases hl : l.getLast? with
    | none => rw [hl] at hx; simp at hx
    | some y =>
      rw [hl] at hx
      rcases List.mem_singleton.mp hx with rfl
      obtain ⟨hne, rfl⟩ := List.mem_getLast?_eq_getLast hl
      exact List.getLast_mem hne
  · rw [if_neg h] at hx; exact hx

theorem mem_groupOfC (u : List Tok) (i : Nat) (x : Tok) :
    x ∈ groupOfC u i ↔ x ∈ u ∧ classifyC x = some i := by
  unfold groupOfC
  rw [List.mem_filter]
  simp

theorem resolvedGroup_pos (u : List Tok) (h : groupOfC u 8 ≠ []) :
    resolvedGroup u 0 = groupOfC u 0 := by
  unfold resolvedGroup
  rw [if_pos ⟨rfl, h⟩]

theorem resolvedGroup_neg (u : List Tok) (i : Nat)
    (h : ¬(i = 0 ∧ groupOfC u 8 ≠ [])) :
    resolvedGroup u i = keepLast (groupOfC u i) := by
  unfold resolvedGroup
  rw [if_neg h]

theorem mem_resolvedGroup (u : List Tok) (i : Nat) (x : Tok)
    (hx : x ∈ resolvedGroup u i) : x ∈ u ∧ classifyC x = some i := by
  by_cases hc : i = 0 ∧ groupOfC u 8 ≠ []
  · rw [hc.1] at hx ⊢
    rw [resolvedGroup_pos u hc.2] at hx
    exact (mem_groupOfC u 0 x).mp hx
  · rw [resolvedGroup_neg u i hc] at hx
    exact (mem_groupOfC u i x).mp (mem_keepLast _ _ hx)

theorem nodup_resolvedGroup (u : List Tok) (hu : u.Nodup) (i : Nat) :
    (resolvedGroup u i).Nodup := by
  unfold resolvedGroup
  split
  · exact List.Nodup.filter _ hu
  · have := length_keepLast_le (groupOfC u i)
    match h : keepLast (groupOfC u i), this with
    | [], _ => exact List.nodup_nil
    | [a], _ => exact List.nodup_singleton a

theorem resolvedGroup_length_le (u : List Tok) (i : Nat)
    (h : ¬(i = 0 ∧ groupOfC u 8 ≠ [])) :
    (resolvedGroup u i).length ≤ 1 := by
  unfold resolvedGroup
  rw [if_neg h]
  exact length_keepLast_le _

theorem resolvedGroup_eq_nil_iff (u : List Tok) (i : Nat) :
    resolvedGroup u i = [] ↔ groupOfC u i = [] := by
  unfold resolvedGroup
  split
  · rename_i h
    rw [h.1]
  · exact keepLast_eq_nil_iff _

theorem mem_cleanOut (s : List Char) (x : Tok) (hx : x ∈ cleanOut s) :
    x ∈ dedupFirst (tokensC s) := by
  unfold cleanOut at hx
  simp only [List.mem_append] at hx
  rcases hx with (h | h) | h
  · exact (mem_resolvedGroup _ _ _ h).1
  · rw [List.mem_flatten] at h
    obtain ⟨l, hl, hxl⟩ := h
    rw [List.mem_map] at hl
    obtain ⟨j, _, rfl⟩ := hl
    exact (mem_resolvedGroup _ _ _ hxl).1
  · exact (List.mem_filter.mp h).1

theorem good_of_mem_cleanOut (s : List Char) (t : Tok) (ht : t ∈ cleanOut s) :
    t ≠ [] ∧ ' ' ∉ t :=
  good_of_mem_tokensC s t ((mem_dedupFirst _ _).mp (mem_cleanOut s t ht))

theorem tokensC_cleanCore (s : List Char) : tokensC (cleanCore s) = cleanOut s :=
  tokensC_joinC (cleanOut s) (good_of_mem_cleanOut s)

/-- Filtering a list whose members all classify to `some j` by the group
test for `i`. -/
theorem filter_classify_const (l : List Tok) (j : Nat)
    (h : ∀ x ∈ l, classifyC x = some j) (i : Nat) :
    l.filter (fun c => classifyC c == some i) = if j = i then l else [] := by
  by_cases hji : j = i
  · subst hji
    rw [if_pos rfl]
    exact List.filter_eq_self.mpr (fun a ha => by simp [h a ha])
  · rw [if_neg hji]
    refine List.filter_eq_nil_iff.mpr (fun a ha => ?_)
    simp only [beq_iff_eq, h a ha, Option.some.injEq]
    exact hji

theorem filter_classify_none (l : List Tok)
    (h : ∀ x ∈ l, classifyC x = none) (i : Nat) :
    l.filter (fun c => classifyC c == some i) = [] := by
  refine List.filter_eq_nil_iff.mpr (fun a ha => ?_)
  simp [h a ha]

theorem filter_classify_none_self (l : List Tok) (j : Nat)
    (h : ∀ x ∈ l, classifyC x = some j) :
    l.filter (fun c => classifyC c == (none : Option Nat)) = [] := by
  refine List.filter_eq_nil_iff.mpr (fun a ha => ?_)
  simp [h a ha]

theorem flatten_map_filter (u : List Tok) (is : List Nat) (p : Tok → Bool) :
    ((is.map (resolvedGroup u)).flatten).filter p =
      ((is.map (fun j => (resolvedGroup u j).filter p)).flatten) := by
  induction is with
  | nil => rfl
  | cons j js ih => simp [List.filter_append, ih]

theorem flatten_single_aux (i : Nat) (v : List Tok) (is : List Nat)
    (h : i ∉ is) :
    ((is.map (fun j => if j = i then v else ([] : List Tok))).flatten) = [] := by
  induction is with
  | nil => rfl
  | cons j js ih =>
    have hji : j ≠ i := fun hh => h (by simp [hh])
    have hjs : i ∉ js := fun hh => h (by simp [hh])
    simp [hji, ih hjs]

theorem flatten_single (i : Nat) (v : List Tok) (is : List Nat)
    (hnd : is.Nodup) (hi : i ∈ is) :
    ((is.map (fun j => if j = i then v else ([] : List Tok))).flatten) = v := by
  induction is with
  | nil => simp at hi
  | cons j js ih =>
    have hn := List.nodup_cons.mp hnd
    rcases List.mem_cons.mp hi with rfl | hi
    · simp only [List.map_cons, List.flatten_cons, if_pos rfl]
      rw [flatten_single_aux _ v js hn.1]
      simp
    · have hji : j ≠ i := fun hh => hn.1 (hh ▸ hi)
      simp only [List.map_cons, List.flatten_cons, if_neg hji, List.nil_append]
      exact ih hn.2 hi

/-- The per-group contents of the sanitized output: for group indices
`i < 8` the output contains exactly `resolvedGroup u i`. -/
theorem groupOfC_cleanOut_lt (s : List Char) (i : Nat) (hi : i < 8) :
    groupOfC (cleanOut s) i = resolvedGroup (dedupFirst (tokensC s)) i := by
  set u := dedupFirst (tokensC s) with hu
  unfold groupOfC cleanOut
  rw [← hu]
  rw [List.filter_append, List.filter_append]
  rw [filter_classify_const (resolvedGroup u 8) 8
        (fun x hx => (mem_resolvedGroup u 8 x hx).2) i]
  rw [if_neg (by omega)]
  rw [flatten_map_filter]
  have hmap : (List.range 8).map (fun j => (resolvedGroup u j).filter
      (fun c => classifyC c == some i)) =
      (List.range 8).map (fun j => if j = i then resolvedGroup u i else []) := by
    refine List.map_congr_left (fun j hj => ?_)
    rw [filter_classify_const (resolvedGroup u j) j
          (fun x hx => (mem_resolvedGroup u j x hx).2) i]
    by_cases hji : j = i
    · subst hji; simp
    · simp [hji]
  rw [hmap, flatten_single i (resolvedGroup u i) (List.range 8)
        (List.nodup_range 8) (List.mem_range.mpr hi)]
  rw [filter_classify_none (u.filter (fun c => classifyC c == (none : Option Nat)))
        (fun x hx => by simpa using (List.mem_filter.mp hx).2) i]
  simp

theorem groupOfC_cleanOut_eight (s : List Char) :
    groupOfC (cleanOut s) 8 = resolvedGroup (dedupFirst (tokensC s)) 8 := by
  set u := dedupFirst (tokensC s) with hu
  unfold groupOfC cleanOut
  rw [← hu]
  rw [List.filter_append, List.filter_append]
  rw [filter_classify_const (resolvedGroup u 8) 8
        (fun x hx => (mem_resolvedGroup u 8 x hx).2) 8]
  rw [if_pos rfl]
  rw [flatten_map_filter]
  have hmap : (List.range 8).map (fun j => (resolvedGroup u j).filter
      (fun c => classifyC c == some 8)) =
      (List.range 8).map (fun _ => ([] : List Tok)) := by
    refine List.map_congr_left (fun j hj => ?_)
    rw [filter_classify_const (resolvedGroup u j) j
          (fun x hx => (mem_resolvedGroup u j x hx).2) 8]
    rw [if_neg (by rw [List.mem_range] at hj; omega)]
  rw [hmap]
  have hflat : ((List.range 8).map (fun _ => ([] : List Tok))).flatten = [] := by
    decide
  rw [hflat]
  rw [filter_classify_none (u.filter (fun c => classifyC c == (none : Option Nat)))
        (fun x hx => by simpa using (List.mem_filter.mp hx).2) 8]
  simp

theorem remaining_cleanOut (s : List Char) :
    (cleanOut s).filter (fun c => classifyC c == (none : Option Nat)) =
      (dedupFirst (tokensC s)).filter (fun c => classifyC c == (none : Option Nat)) := by
  set u := dedupFirst (tokensC s) with hu
  unfold cleanOut
  rw [← hu]
  rw [List.filter_append, List.filter_append]
  rw [filter_classify_none_self (resolvedGroup u 8) 8
        (fun x hx => (mem_resolvedGroup u 8 x hx).2)]
  rw [flatten_map_filter]
  have hmap : (List.range 8).map (fun j => (resolvedGroup u j).filter
      (fun c => classifyC c == (none : Option Nat))) =
      (List.range 8).map (fun _ => ([] : List Tok)) := by
    refine List.map_congr_left (fun j _ => ?_)
    exact filter_classify_none_self (resolvedGroup u j) j
      (fun x hx => (mem_resolvedGroup u j x hx).2)
  rw [hmap]
  have hflat : ((List.range 8).map (fun _ => ([] : List Tok))).flatten = [] := by
    decide
  rw [hflat]
  simp

theorem nodup_cleanOut (s : List Char) : (cleanOut s).Nodup := by
  set u := dedupFirst (tokensC s) with hu
  have hun : u.Nodup := nodup_dedupFirst _
  unfold cleanOut
  rw [← hu]
  refine List.Nodup.append (List.Nodup.append ?_ ?_ ?_) ?_ ?_
  · exact nodup_resolvedGroup u hun 8
  · rw [List.nodup_flatten]
    constructor
    · intro l hl
      rw [List.mem_map] at hl
      obtain ⟨j, _, rfl⟩ := hl
      exact nodup_resolvedGroup u hun j
    · rw [List.pairwise_map]
      refine List.Pairwise.imp_of_mem ?_ (List.nodup_range 8)
      intro a b ha hb hab
      intro x hxa hxb
      have h1 := (mem_resolvedGroup u a x hxa).2
      have h2 := (mem_resolvedGroup u b x hxb).2
      rw [h1] at h2
      exact hab (by injection h2)
  · intro x hxa hxb
    rw [List.mem_flatten] at hxb
    obtain ⟨l, hl, hxl⟩ := hxb
    rw [List.mem_map] at hl
    obtain ⟨j, hj, rfl⟩ := hl
    have h1 := (mem_resolvedGroup u 8 x hxa).2
    have h2 := (mem_resolvedGroup u j x hxl).2
    rw [List.mem_range] at hj
    rw [h1] at h2
    have : (8 : Nat) = j := by injection h2
    omega
  · exact List.Nodup.filter _ hun
  · intro x hxa hxb
    have h2 := (List.mem_filter.mp hxb).2
    simp only [beq_iff_eq] at h2
    rcases List.mem_append.mp hxa with h | h
    · have h1 := (mem_resolvedGroup u 8 x h).2
      rw [h1] at h2
      cases h2
    · rw [List.mem_flatten] at h
      obtain ⟨l, hl, hxl⟩ := h
      rw [List.mem_map] at hl
      obtain ⟨j, _, rfl⟩ := hl
      have h1 := (mem_resolvedGroup u j x hxl).2
      rw [h1] at h2
      cases h2

/-- Re-running the sanitizer core over its own output reproduces it. -/
theorem cleanOut_cleanCore (s : List Char) : cleanOut (cleanCore s) = cleanOut s := by
  have htk : tokensC (cleanCore s) = cleanOut s := tokensC_cleanCore s
  have hdd : dedupFirst (tokensC (cleanCore s)) = cleanOut s := by
    rw [htk]
    exact dedupFirst_eq_self _ (nodup_cleanOut s)
  set u := dedupFirst (tokensC s) with hu
  have hgrp : ∀ i < 8, groupOfC (cleanOut s) i = resolvedGroup u i :=
    fun i hi => groupOfC_cleanOut_lt s i hi
  have hgrp8 : groupOfC (cleanOut s) 8 = resolvedGroup u 8 :=
    groupOfC_cleanOut_eight s
  have hres : ∀ i < 8, resolvedGroup (cleanOut s) i = resolvedGroup u i := by
    intro i hi
    by_cases hc2 : i = 0 ∧ groupOfC u 8 ≠ []
    · obtain ⟨h0, hg8⟩ := hc2
      subst h0
      have hg8o : groupOfC (cleanOut s) 8 ≠ [] := by
        rw [hgrp8, Ne, resolvedGroup_eq_nil_iff]
        exact hg8
      rw [resolvedGroup_pos _ hg8o, resolvedGroup_pos u hg8]
      rw [hgrp 0 (by omega)]
      exact resolvedGroup_pos u hg8
    · have hc1 : ¬(i = 0 ∧ groupOfC (cleanOut s) 8 ≠ []) := by
        rintro ⟨rfl, hne⟩
        refine hc2 ⟨rfl, ?_⟩
        rw [hgrp8, Ne, resolvedGroup_eq_nil_iff] at hne
        exact hne
      rw [resolvedGroup_neg _ i hc1, resolvedGroup_neg u i hc2]
      rw [hgrp i hi, resolvedGroup_neg u i hc2, keepLast_keepLast]
  have hres8 : resolvedGroup (cleanOut s) 8 = resolvedGroup u 8 := by
    rw [resolvedGroup_neg _ 8 (by simp), resolvedGroup_neg u 8 (by simp)]
    rw [hgrp8, resolvedGroup_neg u 8 (by simp), keepLast_keepLast]
  conv_lhs => rw [cleanOut]
  rw [hdd]
  rw [hres8]
  have hmap : (List.range 8).map (resolvedGroup (cleanOut s)) =
      (List.range 8).map (resolvedGroup u) := by
    refine List.map_congr_left (fun j hj => ?_)
    exact hres j (List.mem_range.mp hj)
  rw [hmap, remaining_cleanOut s]
  rw [cleanOut]

end SanitizerLemmas

section SanitizerTheorems

theorem cleanupTailwindClasses_of_ne (s : String) (h : s ≠ "") :
    cleanupTailwindClasses s = String.mk (cleanCore s.data) := by
  unfold cleanupTailwindClasses
  rw [if_neg h]

/-- C5: the Class Sanitizer is idempotent: sanitizing an already-sanitized
class string returns it unchanged. -/
theorem cleanupTailwindClasses_idempotent (x : String) :
    cleanupTailwindClasses (cleanupTailwindClasses x) = cleanupTailwindClasses x := by
  by_cases hx : x = ""
  · subst hx; rfl
  · have h1 : cleanupTailwindClasses x = String.mk (cleanCore x.data) :=
      cleanupTailwindClasses_of_ne x hx
    by_cases hc : cleanCore x.data = []
    · rw [h1, hc]
      rw [show String.mk ([] : List Char) = "" from rfl]
      rfl
    · have hne : String.mk (cleanCore x.data) ≠ "" := by
        intro hh
        have hd : cleanCore x.data = "".data := congrArg String.data hh
        exact hc hd
      rw [h1, cleanupTailwindClasses_of_ne _ hne]
      refine congrArg String.mk ?_
      show cleanCore (cleanCore x.data) = cleanCore x.data
      conv_lhs => rw [cleanCore]
      rw [cleanOut_cleanCore x.data]
      rw [cleanCore]

/-- C2 (amended): the sanitized output contains at most one class per
prefix exclusivity group, except that the `bg-` group may keep several
classes when the input contains a background-image class. -/
theorem cleanupTailwindClasses_exclusive (s : String) (i : Nat) (hi : i < 8)
    (hbg : i = 0 → ∀ t ∈ tokensC s.data, isBgImageClass t = false) :
    (groupOfC (tokensC (cleanupTailwindClasses s).data) i).length ≤ 1 := by
  by_cases hs : s = ""
  · subst hs
    simp [cleanupTailwindClasses, tokensC, splitChar, groupOfC]
  · have h1 : cleanupTailwindClasses s = String.mk (cleanCore s.data) := by
      unfold cleanupTailwindClasses
      rw [if_neg hs]
    rw [h1]
    show (groupOfC (tokensC (cleanCore s.data)) i).length ≤ 1
    rw [tokensC_cleanCore]
    rw [groupOfC_cleanOut_lt s.data i hi]
    refine resolvedGroup_length_le _ i ?_
    rintro ⟨rfl, hne⟩
    refine hne ?_
    refine List.filter_eq_nil_iff.mpr (fun a ha => ?_)
    have ha2 := (mem_dedupFirst _ _).mp ha
    have hb := hbg rfl a ha2
    simp only [beq_iff_eq]
    intro hcl
    unfold classifyC at hcl
    rw [if_neg (by simp [hb])] at hcl
    have hlt := findIdxC_lt_length _ _ _ hcl
    simp [cleanupPrefixes] at hlt

/-- C2 counterexample: with a background-image class present, two distinct
background-color classes both survive sanitization. -/
theorem cleanupTailwindClasses_exclusive_cx :
    cleanupTailwindClasses "bg-[url(a)] bg-red-500 bg-blue-500" =
      "bg-[url(a)] bg-red-500 bg-blue-500" ∧
    groupOfC (tokensC (cleanupTailwindClasses
        "bg-[url(a)] bg-red-500 bg-blue-500").data) 0 =
      ["bg-red-500".data, "bg-blue-500".data] := by
  constructor
  · decide
  · decide

/-- C10: the sanitizer never invents classes: every output token occurs
among the input tokens, and the empty input yields the empty string. -/
theorem cleanupTailwindClasses_conservative (s : String) :
    (∀ t ∈ tokensC (cleanupTailwindClasses s).data, t ∈ tokensC s.data) ∧
    cleanupTailwindClasses "" = "" := by
  refine ⟨?_, rfl⟩
  intro t ht
  by_cases hs : s = ""
  · subst hs
    simp [cleanupTailwindClasses, tokensC, splitChar] at ht
  · have h1 : cleanupTailwindClasses s = String.mk (cleanCore s.data) := by
      unfold cleanupTailwindClasses
      rw [if_neg hs]
    rw [h1] at ht
    have ht2 : t ∈ tokensC (cleanCore s.data) := ht
    rw [tokensC_cleanCore] at ht2
    exact (mem_dedupFirst _ _).mp (mem_cleanOut s.data t ht2)

/-- C10 witness at a concrete input. -/
theorem cleanupTailwindClasses_conservative_witness :
    "bg-blue-500".data ∈ tokensC "bg-red-500 bg-blue-500".data :=
  (cleanupTailwindClasses_conservative "bg-red-500 bg-blue-500").1
    "bg-blue-500".data (by decide)

/-- C2 witness: with no background-image class in the input, the `bg-`
group keeps at most one class. -/
theorem cleanupTailwindClasses_exclusive_witness :
    (groupOfC (tokensC (cleanupTailwindClasses "bg-red-500 bg-blue-500").data) 0).length ≤ 1 :=
  cleanupTailwindClasses_exclusive "bg-red-500 bg-blue-500" 0 (by omega) (by decide)

/-- C6: diffing is symmetric: the classes added going from `a` to `b` are
exactly the classes removed going from `b` to `a`, and vice versa. -/
theorem diffTailwindClasses_symm (a b : String) :
    (diffTailwindClasses a b).added = (diffTailwindClasses b a).removed ∧
    (diffTailwindClasses a b).removed = (diffTailwindClasses b a).added :=
  ⟨rfl, rfl⟩

end SanitizerTheorems

section ProcessorLemmas

theorem splitChar_joinChar (c : Char) (L : List (List Char)) (hL : L ≠ [])
    (h : ∀ p ∈ L, c ∉ p) : splitChar c (joinChar c L) = L := by
  induction L with
  | nil => exact absurd rfl hL
  | cons t ts ih =>
    cases ts with
    | nil =>
      show splitChar c (joinChar c [t]) = [t]
      unfold joinChar
      exact splitChar_of_not_mem c t (h t (by simp))
    | cons t2 ts2 =>
      show splitChar c (t ++ c :: joinChar c (t2 :: ts2)) = t :: t2 :: ts2
      rw [splitChar_append c t _ (h t (by simp))]
      rw [ih (by simp) (fun p hp => h p (by simp [hp]))]

theorem map_mk_data (l : List String) : (l.map String.data).map String.mk = l := by
  induction l with
  | nil => rfl
  | cons a as ih => simp only [List.map_cons, ih]

theorem splitS_joinWithS (c : Char) (l : List String) (hl : l ≠ [])
    (h : ∀ p ∈ l, c ∉ p.data) : splitS c (joinWithS c l) = l := by
  unfold splitS joinWithS
  rw [show (String.mk (joinChar c (l.map String.data))).data =
        joinChar c (l.map String.data) from rfl]
  rw [splitChar_joinChar c (l.map String.data) (by simpa using hl)]
  · exact map_mk_data l
  · intro p hp
    rw [List.mem_map] at hp
    obtain ⟨s, hs, rfl⟩ := hp
    exact h s hs

theorem sep_not_mem_of_mem_splitS (c : Char) (s : String) (p : String)
    (hp : p ∈ splitS c s) : c ∉ p.data := by
  unfold splitS at hp
  rw [List.mem_map] at hp
  obtain ⟨t, ht, rfl⟩ := hp
  exact sep_not_mem_of_mem_splitChar c s.data t ht

/-- The variant-object fold ignores parts whose parse is skipped. -/
theorem variantFold_filter (l : List String) (obj : List (String × String)) :
    l.foldl (fun obj part =>
      match parsePair part with
      | some kv => objInsert obj kv.1 kv.2
      | none => obj) obj =
    (l.filter (fun p => (parsePair p).isSome)).foldl (fun obj part =>
      match parsePair part with
      | some kv => objInsert obj kv.1 kv.2
      | none => obj) obj := by
  induction l generalizing obj with
  | nil => rfl
  | cons p ps ih =>
    cases hp : parsePair p with
    | none =>
      simp only [List.foldl_cons, List.filter_cons, hp]
      simp only [Option.isSome_none, Bool.false_eq_true, if_false]
      exact ih obj
    | some kv =>
      simp only [List.foldl_cons, List.filter_cons, hp]
      simp only [Option.isSome_some, if_true]
      simp only [List.foldl_cons, hp]
      exact ih _

theorem objLookup_objInsert_self (obj : List (String × String)) (k v : String) :
    objLookup (objInsert obj k v) k = some v := by
  induction obj with
  | nil => simp [objInsert, objLookup]
  | cons e rest ih =>
    by_cases he : e.1 = k
    · simp [objInsert, he, objLookup]
    · simp [objInsert, he, objLookup, ih]

theorem objLookup_objInsert_other (obj : List (String × String)) (k v k' : String)
    (h : k' ≠ k) : objLookup (objInsert obj k v) k' = objLookup obj k' := by
  have h2 : ¬ k = k' := fun hh => h hh.symm
  induction obj with
  | nil => simp [objInsert, objLookup, h2]
  | cons e rest ih =>
    by_cases he : e.1 = k
    · have he2 : ¬ e.1 = k' := by rw [he]; exact h2
      simp only [objInsert]
      rw [if_pos he]
      simp only [objLookup]
      rw [if_neg he2, if_neg he2]
    · simp only [objInsert]
      rw [if_neg he]
      by_cases he2 : e.1 = k'
      · simp only [objLookup]
        rw [if_pos he2, if_pos he2]
      · simp only [objLookup]
        rw [if_neg he2, if_neg he2, ih]

theorem isSome_variantStep (obj : List (String × String)) (p k : String)
    (h : (objLookup obj k).isSome) :
    (objLookup
      (match parsePair p with
       | some kv => objInsert obj kv.1 kv.2
       | none => obj) k).isSome := by
  cases hp : parsePair p with
  | none => exact h
  | some kv =>
    by_cases hk : k = kv.1
    · subst hk
      simp [objLookup_objInsert_self]
    · simp [objLookup_objInsert_other obj kv.1 kv.2 k hk, h]

theorem isSome_variantFold (l : List String) (obj : List (String × String))
    (k : String) (h : (objLookup obj k).isSome) :
    (objLookup (l.foldl (fun obj part =>
      match parsePair part with
      | some kv => objInsert obj kv.1 kv.2
      | none => obj) obj) k).isSome := by
  induction l generalizing obj with
  | nil => exact h
  | cons p ps ih =>
    simp only [List.foldl_cons]
    exact ih _ (isSome_variantStep obj p k h)

theorem isSome_variantFold_of_mem (l : List String) (obj : List (String × String))
    (p : String) (hp : p ∈ l) (kv : String × String) (hkv : parsePair p = some kv) :
    (objLookup (l.foldl (fun obj part =>
      match parsePair part with
      | some kv => objInsert obj kv.1 kv.2
      | none => obj) obj) kv.1).isSome := by
  induction l generalizing obj with
  | nil => simp at hp
  | cons q qs ih =>
    simp only [List.foldl_cons]
    rcases List.mem_cons.mp hp with rfl | hp
    · refine isSome_variantFold qs _ kv.1 ?_
      rw [hkv]
      simp [objLookup_objInsert_self]
    · exact ih _ hp

/-- `find?` over the per-value row built by `extractVariantStyles`. -/
theorem find?_map_pair (f : String → String) (vs : List String) (V : String)
    (h : V ∈ vs) :
    (vs.map (fun v => (v, f v))).find? (fun w => w.1 == V) = some (V, f V) := by
  induction vs with
  | nil => simp at h
  | cons a rest ih =>
    by_cases ha : a = V
    · subst ha
      simp [List.find?_cons_of_pos]
    · have : V ∈ rest := by
        rcases List.mem_cons.mp h with h1 | h1
        · exact absurd h1.symm ha
        · exact h1
      rw [List.map_cons, List.find?_cons_of_neg _ (by simp [ha])]
      exact ih this

theorem slotOf_extractVariantStyles (styles : List (String × String))
    (avp : List (String × List String)) (tokens : DesignTokens)
    (P : String) (vs : List String) (V : String)
    (hfind : avp.find? (fun e => e.1 == P) = some (P, vs)) (hV : V ∈ vs) :
    slotOf (extractVariantStyles styles avp tokens) P V =
      some (slotValue styles P vs V) := by
  induction avp with
  | nil => simp [List.find?] at hfind
  | cons e es ih =>
    by_cases he : e.1 = P
    · rw [List.find?_cons_of_pos _ (by simp [he])] at hfind
      injection hfind with hfind
      subst hfind
      unfold extractVariantStyles slotOf
      rw [List.map_cons, List.find?_cons_of_pos _ (by simp)]
      simp only
      rw [find?_map_pair (fun v => slotValue styles P vs v) vs V hV]
    · rw [List.find?_cons_of_neg _ (by simp [he])] at hfind
      have := ih hfind
      unfold extractVariantStyles slotOf at this ⊢
      rw [List.map_cons, List.find?_cons_of_neg _ (by simp [he])]
      exact this

end ProcessorLemmas

section ProcessorTheorems

/-- C8: parsing a variant key skips malformed pairs (no `=`, empty
property, or empty value) and parses the rest exactly as if the malformed
pairs were absent, and every well-formed pair leaves its property bound in
the parsed object. -/
theorem variantObjOf_malformed_skipped (key : String) :
    variantObjOf key =
      variantObjOf (joinWithS ':'
        ((splitS ':' key).filter (fun p => (parsePair p).isSome))) ∧
    (∀ p ∈ splitS ':' key, ∀ kv, parsePair p = some kv →
      (objLookup (variantObjOf key) kv.1).isSome) := by
  constructor
  · unfold variantObjOf
    rw [variantFold_filter]
    cases hg : (splitS ':' key).filter (fun p => (parsePair p).isSome) with
    | nil =>
      rw [show joinWithS ':' ([] : List String) = "" from rfl]
      decide
    | cons g gs =>
      have hnocolon : ∀ p ∈ g :: gs, ':' ∉ p.data := by
        intro p hp
        have hmem : p ∈ (splitS ':' key).filter (fun p => (parsePair p).isSome) := by
          rw [hg]; exact hp
        exact sep_not_mem_of_mem_splitS ':' key p (List.mem_filter.mp hmem).1
      rw [splitS_joinWithS ':' (g :: gs) (by simp) hnocolon]
  · intro p hp kv hkv
    exact isSome_variantFold_of_mem (splitS ':' key) [] p hp kv hkv

/-- C8 witness: in `"type=primary:state"` the pair `state` (no `=`) is
skipped while `type=primary` still binds `type`. -/
theorem variantObjOf_malformed_skipped_witness :
    (objLookup (variantObjOf "type=primary:state") "type").isSome :=
  (variantObjOf_malformed_skipped "type=primary:state").2
    "type=primary" (by decide) ("type", "primary") (by decide)

/-- C1 (amended): a slot whose direct extraction is empty and whose
classification scan finds no qualifying class is left as the explicit
empty string, provided no fabricated-default branch applies to it: the
lowercased property must not be `type`/`variant`/`size` (nor `state` with
a hover/active value) when the value has no concrete variants, and must
not be `state` with a value containing `disabled`. -/
theorem extractVariantStyles_empty_slot (styles : List (String × String))
    (avp : List (String × List String)) (tokens : DesignTokens)
    (P : String) (vs : List String) (V : String)
    (hfind : avp.find? (fun e => e.1 == P) = some (P, vs))
    (hV : V ∈ vs)
    (h1 : phase1Slot styles P V = "")
    (h2 : scanResult styles (lowerS P) vs V (keysForValue styles (lowerS P) V) = [])
    (h3 : keysForValue styles (lowerS P) V = [] →
      lowerS P ≠ "type" ∧ lowerS P ≠ "variant" ∧ lowerS P ≠ "size" ∧
      (lowerS P = "state" → containsS (lowerS V) "hover" = false ∧
        containsS (lowerS V) "active" = false))
    (h4 : lowerS P = "state" → containsS (lowerS V) "disabled" = false) :
    slotOf (extractVariantStyles styles avp tokens) P V = some "" := by
  rw [slotOf_extractVariantStyles styles avp tokens P vs V hfind hV]
  have hscan : slotAfterScan styles P vs V = "" := by
    unfold slotAfterScan
    rw [h1]
    rw [show trimNonempty "" = false from rfl]
    simp only [Bool.false_eq_true, if_false]
    by_cases hkeys : keysForValue styles (lowerS P) V = []
    · obtain ⟨ht, hv, hs, hst⟩ := h3 hkeys
      rw [hkeys]
      simp only [List.isEmpty_nil, if_true]
      have hbt : (lowerS P == "type") = false := by simp [ht]
      have hbv : (lowerS P == "variant") = false := by simp [hv]
      have hbs : (lowerS P == "size") = false := by simp [hs]
      rw [hbt, hbv]
      simp only [Bool.or_false, Bool.false_eq_true, if_false]
      by_cases hstate : lowerS P = "state"
      · rw [if_pos (by simp [hstate])]
        unfold stateDefault
        rw [h4 hstate, (hst hstate).1, (hst hstate).2]
        simp
      · rw [if_neg (by simp [hstate]), hbs]
        simp
    · have hne : (keysForValue styles (lowerS P) V).isEmpty = false := by
        cases hk : keysForValue styles (lowerS P) V with
        | nil => exact absurd hk hkeys
        | cons a as => rfl
      rw [hne]
      simp only [Bool.false_eq_true, if_false]
      rw [h2]
      simp
  have hslot : slotValue styles P vs V = "" := by
    unfold slotValue
    rw [hscan]
    rw [if_neg ?_]
    simp only [Bool.and_eq_true, Bool.not_eq_true]
    rintro ⟨⟨-, hpe⟩, hdis⟩
    have hstate : lowerS P = "state" := by simpa using hpe
    rw [h4 hstate] at hdis
    cases hdis
  rw [hslot]

/-- C1 witness: property `kind`, value `b`, with no variants and no
default branch: the slot is the explicit empty string. -/
theorem extractVariantStyles_empty_slot_witness :
    slotOf (extractVariantStyles [("kind=a", "foo")] [("kind", ["a", "b"])] {})
      "kind" "b" = some "" :=
  extractVariantStyles_empty_slot [("kind=a", "foo")] [("kind", ["a", "b"])] {}
    "kind" ["a", "b"] "b" (by decide) (by decide) (by decide) (by decide)
    (by decide) (by decide)

/-- C1 counterexample: for `(state, disabled)` the classification scan
yields zero qualifying classes, yet the returned slot is the fabricated
default `opacity-50 cursor-not-allowed`, not the empty string. -/
theorem extractVariantStyles_fabricates_default :
    scanResult [("state=default", "foo")] "state" ["default", "disabled"]
      "disabled" (keysForValue [("state=default", "foo")] "state" "disabled") = [] ∧
    slotOf (extractVariantStyles [("state=default", "foo")]
      [("state", ["default", "disabled"])] {}) "state" "disabled" =
      some "opacity-50 cursor-not-allowed" := by
  exact ⟨by decide, by decide⟩

/-- C4 (amended): the classification scan places a class into the
`(P, V)` slot only if it is drawn from the union of the classes of `V`'s
variants, is not an excluded layout class, and either is the special-cased
`bg-transparent` or both appears (as a substring of the raw class string)
in every variant with value `V` and in no variant with a different
declared value. -/
theorem scanResult_only_if (styles : List (String × String)) (pl : String)
    (propValues : List String) (V : String) (keys : List String) (cls : String)
    (h : cls ∈ scanResult styles pl propValues V keys) :
    cls ∈ allClassesForValue styles keys ∧
    layoutSkip cls = false ∧
    (cls = "bg-transparent" ∨
      (appearsInAllKeys styles keys cls = true ∧
       appearsInOtherValues styles pl propValues V cls = false)) := by
  unfold scanResult at h
  have h2 := List.mem_filter.mp h
  refine ⟨h2.1, ?_, ?_⟩
  · by_cases hl : layoutSkip cls = true
    · rw [if_pos hl] at h2
      exact absurd h2.2 (by simp)
    · simpa using hl
  · have hl : layoutSkip cls = false := by
      by_cases hl : layoutSkip cls = true
      · rw [if_pos hl] at h2
        exact absurd h2.2 (by simp)
      · simpa using hl
    rw [hl] at h2
    simp only [Bool.false_eq_true, if_false] at h2
    by_cases hbt : cls = "bg-transparent"
    · exact Or.inl hbt
    · rw [if_neg (by simp [hbt])] at h2
      have := h2.2
      simp only [Bool.and_eq_true, Bool.not_eq_true] at this
      exact Or.inr ⟨this.1, by simpa using this.2⟩

/-- C4 witness: `foo` qualifies for `(type, a)`: it is in the union, not a
layout class, appears in every `a` variant and in no `b` variant. -/
theorem scanResult_only_if_witness :
    "foo" ∈ allClassesForValue
      [("type=a", "bg-transparent foo"), ("type=b", "bg-transparent bar")]
      ["type=a"] ∧
    layoutSkip "foo" = false ∧
    ("foo" = "bg-transparent" ∨
      (appearsInAllKeys
        [("type=a", "bg-transparent foo"), ("type=b", "bg-transparent bar")]
        ["type=a"] "foo" = true ∧
       appearsInOtherValues
        [("type=a", "bg-transparent foo"), ("type=b", "bg-transparent bar")]
        "type" ["a", "b"] "a" "foo" = false)) :=
  scanResult_only_if
    [("type=a", "bg-transparent foo"), ("type=b", "bg-transparent bar")]
    "type" ["a", "b"] "a" ["type=a"] "foo" (by decide)

/-- C4 counterexample: `bg-transparent` is placed into the `(Type, a)`
slot although it also appears in the class set of the concrete variant
`type=b`, whose value of the property is `b ≠ a`. -/
theorem extractVariantStyles_places_bg_transparent :
    slotOf (extractVariantStyles
      [("type=a", "bg-transparent foo"), ("type=b", "bg-transparent bar")]
      [("Type", ["a", "b"])] {}) "Type" "a" = some "bg-transparent foo" ∧
    "bg-transparent" ∈ toksS "bg-transparent foo" ∧
    styleLookup [("type=a", "bg-transparent foo"), ("type=b", "bg-transparent bar")]
      "type=b" = some "bg-transparent bar" ∧
    "bg-transparent" ∈ toksS "bg-transparent bar" ∧
    objLookup (variantObjOf "type=b") "type" = some "b" ∧
    ("b" : String) ≠ "a" := by
  refine ⟨by decide, by decide, by decide, by decide, by decide, by decide⟩

end ProcessorTheorems

section MergeLemmas

theorem getLast?_mem_list (l : List α) (x : α) (h : l.getLast? = some x) :
    x ∈ l := by
  obtain ⟨hne, rfl⟩ := List.mem_getLast?_eq_getLast h
  exact List.getLast_mem hne

theorem filter_dedupSeen [DecidableEq α] (p : α → Bool) (seen : List α) (l : List α) :
    (dedupSeen seen l).filter p = dedupSeen (seen.filter p) (l.filter p) := by
  induction l generalizing seen with
  | nil => rfl
  | cons a as ih =>
    simp only [dedupSeen]
    by_cases ha : a ∈ seen
    · rw [if_pos ha, List.filter_cons]
      by_cases hpa : p a
      · rw [if_pos (by simp [hpa])]
        simp only [dedupSeen]
        rw [if_pos (List.mem_filter.mpr ⟨ha, hpa⟩)]
        exact ih seen
      · rw [if_neg (by simp [Bool.eq_false_iff.mpr hpa])]
        exact ih seen
    · rw [if_neg ha, List.filter_cons, List.filter_cons]
      by_cases hpa : p a
      · rw [if_pos (by simp [hpa]), if_pos (by simp [hpa])]
        simp only [dedupSeen]
        rw [if_neg (fun hh => ha (List.mem_filter.mp hh).1)]
        congr 1
        have : (a :: seen).filter p = a :: seen.filter p := by
          rw [List.filter_cons, if_pos (by simp [hpa])]
        rw [← this]
        exact ih (a :: seen)
      · rw [if_neg (by simp [Bool.eq_false_iff.mpr hpa]),
            if_neg (by simp [Bool.eq_false_iff.mpr hpa])]
        have : (a :: seen).filter p = seen.filter p := by
          rw [List.filter_cons, if_neg (by simp [Bool.eq_false_iff.mpr hpa])]
        rw [← this]
        exact ih (a :: seen)

theorem filter_dedupFirst [DecidableEq α] (p : α → Bool) (l : List α) :
    (dedupFirst l).filter p = dedupFirst (l.filter p) :=
  filter_dedupSeen p [] l

theorem dedupFirst_singleton [DecidableEq α] (c : α) : dedupFirst [c] = [c] := by
  simp [dedupFirst, dedupSeen]

theorem good_toksS (s : String) (t : String) (ht : t ∈ toksS s) :
    t ≠ "" ∧ ' ' ∉ t.data := by
  unfold toksS splitS at ht
  have h2 := List.mem_filter.mp ht
  rw [List.mem_map] at h2
  obtain ⟨⟨tc, htc, rfl⟩, hne⟩ := h2
  refine ⟨by simpa using hne, ?_⟩
  exact sep_not_mem_of_mem_splitChar ' ' s.data tc htc

theorem filter_ne_map_mk (l : List (List Char)) :
    ((l.map String.mk).filter (fun t => t ≠ "")) =
      (l.filter (fun t => t ≠ ([] : List Char))).map String.mk := by
  induction l with
  | nil => rfl
  | cons a as ih =>
    by_cases ha : a = []
    · subst ha
      rw [List.map_cons, List.filter_cons, List.filter_cons]
      rw [if_neg (by simp [show String.mk ([] : List Char) = "" from rfl]),
          if_neg (by simp)]
      exact ih
    · have hmk : String.mk a ≠ "" := fun hh => ha (congrArg String.data hh)
      rw [List.map_cons, List.filter_cons, List.filter_cons]
      rw [if_pos (by simp [hmk]), if_pos (by simp [ha])]
      rw [List.map_cons, ih]

theorem toksS_joinS (L : List String) (h : ∀ t ∈ L, t ≠ "" ∧ ' ' ∉ t.data) :
    toksS (joinS L) = L := by
  unfold toksS splitS joinS joinWithS
  rw [show (String.mk (joinChar ' ' (L.map String.data))).data =
        joinChar ' ' (L.map String.data) from rfl]
  rw [filter_ne_map_mk]
  have := tokensC_joinC (L.map String.data) ?_
  · unfold tokensC at this
    unfold joinC at this
    rw [this]
    exact map_mk_data L
  · intro t htl
    rw [List.mem_map] at htl
    obtain ⟨s, hs, rfl⟩ := htl
    obtain ⟨h1, h2⟩ := h s hs
    refine ⟨fun hh => h1 ?_, h2⟩
    exact congrArg String.mk hh

theorem mem_mergeFinalGroup_classify (ex nw : List String) (g : Nat) (c : String)
    (hc : c ∈ mergeFinalGroup ex nw g) : getClassGroupByPrefix c = some g := by
  unfold mergeFinalGroup at hc
  cases hl : (nw.filter (fun x => getClassGroupByPrefix x == some g)).getLast? with
  | none =>
    rw [hl] at hc
    simpa using (List.mem_filter.mp hc).2
  | some c0 =>
    rw [hl] at hc
    rcases List.mem_singleton.mp hc with rfl
    have := getLast?_mem_list _ _ hl
    simpa using (List.mem_filter.mp this).2

theorem mem_mergeFinalGroup_src (ex nw : List String) (g : Nat) (c : String)
    (hc : c ∈ mergeFinalGroup ex nw g) : c ∈ ex ∨ c ∈ nw := by
  unfold mergeFinalGroup at hc
  cases hl : (nw.filter (fun x => getClassGroupByPrefix x == some g)).getLast? with
  | none =>
    rw [hl] at hc
    exact Or.inl (List.mem_filter.mp hc).1
  | some c0 =>
    rw [hl] at hc
    rcases List.mem_singleton.mp hc with rfl
    exact Or.inr (List.mem_filter.mp (getLast?_mem_list _ _ hl)).1

theorem filter_filterMap_group (f : Nat → Option String)
    (hf : ∀ g c, f g = some c → getClassGroupByPrefix c = some g)
    (ks : List Nat) (hnd : ks.Nodup) (g : Nat) :
    (ks.filterMap f).filter (fun c => getClassGroupByPrefix c == some g) =
      if g ∈ ks then (f g).toList else [] := by
  induction ks with
  | nil => simp
  | cons k ks ih =>
    have hn := List.nodup_cons.mp hnd
    cases hfk : f k with
    | none =>
      rw [List.filterMap_cons_none hfk, ih hn.2]
      by_cases hgk : g = k
      · subst hgk
        rw [if_neg hn.1, if_pos (by simp), hfk]
        rfl
      · by_cases hgks : g ∈ ks
        · rw [if_pos hgks, if_pos (by simp [hgks])]
        · have hnotin : g ∉ k :: ks := by
            rw [List.mem_cons]
            rintro (rfl | hh)
            · exact hgk rfl
            · exact hgks hh
          rw [if_neg hgks, if_neg hnotin]
    | some c =>
      rw [List.filterMap_cons_some hfk, List.filter_cons]
      have hc := hf k c hfk
      by_cases hgk : k = g
      · subst hgk
        rw [if_pos (by simp [hc]), ih hn.2, if_neg hn.1, if_pos (by simp), hfk]
        rfl
      · rw [if_neg (by simp [hc, hgk]), ih hn.2]
        by_cases hgks : g ∈ ks
        · rw [if_pos hgks, if_pos (by simp [hgks])]
        · have hnotin : g ∉ k :: ks := by
            rw [List.mem_cons]
            rintro (rfl | hh)
            · exact hgk rfl
            · exact hgks hh
          rw [if_neg hgks, if_neg hnotin]

theorem filter_some_mergeNonConf (arr : List String) (g : Nat) :
    (mergeNonConf arr).filter (fun c => getClassGroupByPrefix c == some g) = [] := by
  refine List.filter_eq_nil_iff.mpr (fun a ha => ?_)
  have h2 := (List.mem_filter.mp ha).2
  simp only [beq_iff_eq] at h2 ⊢
  rw [h2]
  simp

theorem nodup_mergeKeys (ex nw : List String) : (mergeKeys ex nw).Nodup :=
  nodup_dedupFirst _

theorem mergeFinalGroup_getLast?_classify (ex nw : List String) (g : Nat)
    (c : String) (h : (mergeFinalGroup ex nw g).getLast? = some c) :
    getClassGroupByPrefix c = some g :=
  mem_mergeFinalGroup_classify ex nw g c (getLast?_mem_list _ _ h)

/-- The merged token list, before joining. -/
theorem toksS_mergeUniqueClasses (existing newClasses : String) :
    toksS (mergeUniqueClasses existing newClasses) =
      dedupFirst (mergeNonConf (toksS existing) ++ mergeNonConf (toksS newClasses) ++
        mergeLasts (toksS existing) (toksS newClasses)) := by
  unfold mergeUniqueClasses
  refine toksS_joinS _ ?_
  intro t ht
  have ht2 := (mem_dedupFirst _ _).mp ht
  rcases List.mem_append.mp ht2 with h | h
  · rcases List.mem_append.mp h with h | h
    · exact good_toksS existing t (List.mem_filter.mp h).1
    · exact good_toksS newClasses t (List.mem_filter.mp h).1
  · unfold mergeLasts at h
    rw [List.mem_filterMap] at h
    obtain ⟨g, _, hg⟩ := h
    rcases mem_mergeFinalGroup_src _ _ g t (getLast?_mem_list _ _ hg) with h | h
    · exact good_toksS existing t h
    · exact good_toksS newClasses t h

end MergeLemmas

section MergeTheorems

/-- C9: `mergeUniqueClasses` keeps at most one class per conflicting
prefix group; when the new classes contain members of a group, the kept
class of that group is the last such member of the new classes; classes
outside every group are kept from both inputs with exact duplicates
removed. -/
theorem mergeUniqueClasses_spec (existing newClasses : String) :
    (∀ g : Nat,
      ((toksS (mergeUniqueClasses existing newClasses)).filter
        (fun c => getClassGroupByPrefix c == some g)).length ≤ 1) ∧
    (∀ (g : Nat) (c : String),
      ((toksS newClasses).filter
        (fun x => getClassGroupByPrefix x == some g)).getLast? = some c →
      (toksS (mergeUniqueClasses existing newClasses)).filter
        (fun x => getClassGroupByPrefix x == some g) = [c]) ∧
    (∀ c : String, getClassGroupByPrefix c = none →
      (c ∈ toksS (mergeUniqueClasses existing newClasses) ↔
        c ∈ toksS existing ∨ c ∈ toksS newClasses)) ∧
    (toksS (mergeUniqueClasses existing newClasses)).Nodup := by
  have hM := toksS_mergeUniqueClasses existing newClasses
  have hfilter : ∀ g : Nat,
      (toksS (mergeUniqueClasses existing newClasses)).filter
        (fun c => getClassGroupByPrefix c == some g) =
      if g ∈ mergeKeys (toksS existing) (toksS newClasses) then
        ((mergeFinalGroup (toksS existing) (toksS newClasses) g).getLast?).toList
      else [] := by
    intro g
    rw [hM, filter_dedupFirst, List.filter_append, List.filter_append]
    rw [filter_some_mergeNonConf, filter_some_mergeNonConf]
    unfold mergeLasts
    rw [filter_filterMap_group _
      (fun g c => mergeFinalGroup_getLast?_classify (toksS existing) (toksS newClasses) g c)
      _ (nodup_mergeKeys _ _) g]
    simp only [List.nil_append]
    by_cases hg : g ∈ mergeKeys (toksS existing) (toksS newClasses)
    · rw [if_pos hg]
      cases hl : (mergeFinalGroup (toksS existing) (toksS newClasses) g).getLast? with
      | none => rfl
      | some c => exact dedupFirst_singleton c
    · rw [if_neg hg]
      rfl
  refine ⟨?_, ?_, ?_, ?_⟩
  · intro g
    rw [hfilter g]
    by_cases hg : g ∈ mergeKeys (toksS existing) (toksS newClasses)
    · rw [if_pos hg]
      cases (mergeFinalGroup (toksS existing) (toksS newClasses) g).getLast? <;> simp
    · rw [if_neg hg]
      simp
  · intro g c hc
    have hmem : c ∈ (toksS newClasses).filter
        (fun x => getClassGroupByPrefix x == some g) := getLast?_mem_list _ _ hc
    have hcg : getClassGroupByPrefix c = some g := by
      simpa using (List.mem_filter.mp hmem).2
    have hkey : g ∈ mergeKeys (toksS existing) (toksS newClasses) := by
      unfold mergeKeys
      rw [mem_dedupFirst, List.mem_filterMap]
      exact ⟨c, List.mem_append.mpr (Or.inr (List.mem_filter.mp hmem).1), hcg⟩
    have hfin : mergeFinalGroup (toksS existing) (toksS newClasses) g = [c] := by
      unfold mergeFinalGroup
      rw [hc]
    rw [hfilter g, if_pos hkey, hfin]
    rfl
  · intro c hc
    rw [hM, mem_dedupFirst]
    constructor
    · intro h
      rcases List.mem_append.mp h with h | h
      · rcases List.mem_append.mp h with h | h
        · exact Or.inl (List.mem_filter.mp h).1
        · exact Or.inr (List.mem_filter.mp h).1
      · exfalso
        unfold mergeLasts at h
        rw [List.mem_filterMap] at h
        obtain ⟨g, _, hg⟩ := h
        have := mergeFinalGroup_getLast?_classify _ _ g c hg
        rw [hc] at this
        cases this
    · intro h
      refine List.mem_append.mpr (Or.inl (List.mem_append.mpr ?_))
      rcases h with h | h
      · exact Or.inl (List.mem_filter.mpr ⟨h, by simp [hc]⟩)
      · exact Or.inr (List.mem_filter.mpr ⟨h, by simp [hc]⟩)
  · rw [hM]
    exact nodup_dedupFirst _

/-- C9 witness at concrete inputs: the `bg-` group keeps the last new
class and a non-conflicting class survives. -/
theorem mergeUniqueClasses_spec_witness :
    (toksS (mergeUniqueClasses "bg-red-500 flex" "bg-blue-500 bg-green-500")).filter
      (fun x => getClassGroupByPrefix x == some 0) = ["bg-green-500"] ∧
    ("flex" ∈ toksS (mergeUniqueClasses "bg-red-500 flex" "bg-blue-500 bg-green-500") ↔
      "flex" ∈ toksS "bg-red-500 flex" ∨ "flex" ∈ toksS "bg-blue-500 bg-green-500") :=
  ⟨(mergeUniqueClasses_spec "bg-red-500 flex" "bg-blue-500 bg-green-500").2.1
      0 "bg-green-500" (by decide),
   (mergeUniqueClasses_spec "bg-red-500 flex" "bg-blue-500 bg-green-500").2.2.1
      "flex" (by decide)⟩

end MergeTheorems

section ColorLemmas

/-- The best-match fold of `findClosestColorToken` preserves any predicate
the individual token distances satisfy. -/
theorem closestFold_inv (hexColor : String) (P : String → Int → Prop)
    (l : List (String × ColorToken))
    (hl : ∀ e ∈ l, ∀ tv, e.2.value = TokenVal.str tv →
      ∀ d, distSq hexColor tv = some d → P e.1 d)
    (st : Option String × Option Int)
    (hst : st = (none, none) ∨ ∃ n d, st = (some n, some d) ∧ P n d) :
    l.foldl (closestStep hexColor) st = (none, none) ∨
      ∃ n d, l.foldl (closestStep hexColor) st = (some n, some d) ∧ P n d := by
  induction l generalizing st with
  | nil => exact hst
  | cons e es ih =>
    rw [List.foldl_cons]
    refine ih (fun e2 he2 => hl e2 (by simp [he2])) _ ?_
    unfold closestStep
    split
    · exact hst
    · rename_i tv hv
      by_cases hsw : startsWithS tv "#"
      · rw [if_pos hsw]
        split
        · rename_i d hd
          rcases hst with rfl | ⟨n, d0, rfl, hP⟩
          · dsimp only
            exact Or.inr ⟨e.1, d, rfl, hl e (by simp) tv hv d hd⟩
          · dsimp only
            by_cases hlt : d < d0
            · rw [if_pos hlt]
              exact Or.inr ⟨e.1, d, rfl, hl e (by simp) tv hv d hd⟩
            · rw [if_neg hlt]
              exact Or.inr ⟨n, d0, rfl, hP⟩
        · exact hst
      · rw [if_neg hsw]
        exact hst

end ColorLemmas

section ColorTheorems

/-- C3: `findClosestColorToken` returns only candidates whose Euclidean
RGB distance to the input is at most 30 on the 0-255 scale (squared
distance at most 900), and returns `null` whenever every candidate's
distance exceeds 30. -/
theorem findClosestColorToken_distance_bound :
    (∀ (hexColor : String) (colorTokens : List (String × ColorToken)) (name : String),
      findClosestColorToken hexColor colorTokens = some name →
      ∃ tv d, (∃ e ∈ colorTokens, e.1 = name ∧ e.2.value = TokenVal.str tv) ∧
        distSq hexColor tv = some d ∧ d ≤ 900) ∧
    (∀ (hexColor : String) (colorTokens : List (String × ColorToken)),
      (∀ e ∈ colorTokens, ∀ tv, e.2.value = TokenVal.str tv →
        ∀ d, distSq hexColor tv = some d → 900 < d) →
      findClosestColorToken hexColor colorTokens = none) := by
  constructor
  · intro hexColor colorTokens name hres
    have hinv := closestFold_inv hexColor
      (fun n d => ∃ tv, (∃ e ∈ colorTokens, e.1 = n ∧ e.2.value = TokenVal.str tv) ∧
        distSq hexColor tv = some d)
      colorTokens
      (fun e he tv hv d hd => ⟨tv, ⟨e, he, rfl, hv⟩, hd⟩)
      (none, none) (Or.inl rfl)
    unfold findClosestColorToken at hres
    rcases hinv with hfold | ⟨n, d, hfold, tv, hent, hdist⟩
    · rw [hfold] at hres
      cases hres
    · rw [hfold] at hres
      simp only at hres
      by_cases hlt : 100 * d < 65025
      · rw [if_pos hlt] at hres
        injection hres with hres
        subst hres
        exact ⟨tv, d, hent, hdist, by omega⟩
      · rw [if_neg hlt] at hres
        cases hres
  · intro hexColor colorTokens hfar
    have hinv := closestFold_inv hexColor (fun _ d => 900 < d) colorTokens
      (fun e he tv hv d hd => hfar e he tv hv d hd)
      (none, none) (Or.inl rfl)
    unfold findClosestColorToken
    rcases hinv with hfold | ⟨n, d, hfold, hP⟩
    · rw [hfold]
    · rw [hfold]
      simp only
      rw [if_neg (by omega)]

/-- C3 witness: distance 0 is reported within the bound, and a far-away
input returns `null`. -/
theorem findClosestColorToken_distance_bound_witness :
    (∃ tv d, (∃ e ∈ [("black", (⟨TokenVal.str "#000000"⟩ : ColorToken))],
        e.1 = "black" ∧ e.2.value = TokenVal.str tv) ∧
      distSq "#000000" tv = some d ∧ d ≤ 900) ∧
    findClosestColorToken "#ffffff" [("black", ⟨TokenVal.str "#000000"⟩)] = none := by
  constructor
  · exact findClosestColorToken_distance_bound.1 "#000000"
      [("black", ⟨TokenVal.str "#000000"⟩)] "black" (by decide)
  · refine findClosestColorToken_distance_bound.2 "#ffffff"
      [("black", ⟨TokenVal.str "#000000"⟩)] ?_
    intro e he tv hv d hd
    rw [List.mem_singleton] at he
    subst he
    have htv : TokenVal.str "#000000" = TokenVal.str tv := hv
    injection htv with htv
    subst htv
    have : distSq "#ffffff" "#000000" = some 195075 := by decide
    rw [this] at hd
    injection hd with hd
    omega

end ColorTheorems

section CompilerTheorems

/-- C7: for a style record whose padding is the shorthand "8px 8px 8px 8px"
(and whose padding matches no spacing token), `stylesToTailwind` outputs
exactly the single unified class "p-2", hence none of the directional
pt-, pr-, pb-, pl- classes; in general, whenever the parsed padding shorthand
has all four sides equal and no spacing token matches, the padding handler
appends the one unified `p-` class built from the pixel-to-scale table
instead of four directional classes; and the table maps "8" to "2". -/
theorem stylesToTailwind_unified_padding :
    (∀ (figmaRgba : String → Option Rgba) (tokens : DesignTokens),
      findMatchingToken figmaRgba "8px 8px 8px 8px" TokenType.spacing tokens = none →
      stylesToTailwind figmaRgba { padding := some "8px 8px 8px 8px" } tokens = "p-2") ∧
    (∀ (figmaRgba : String → Option Rgba) (styles : StyleProperties)
        (tokens : DesignTokens) (sides : SpacingSides) (st : TwState),
      truthy styles.padding = true →
      findMatchingToken figmaRgba (optVal styles.padding) TokenType.spacing tokens = none →
      parseSpacingShorthand (optVal styles.padding) = some sides →
      sides.top = sides.right → sides.right = sides.bottom → sides.bottom = sides.left →
      twPadding figmaRgba styles tokens st =
        (st.1 ++ ["p-" ++ pxToTailwindSpacing sides.top], st.2)) ∧
    pxToTailwindSpacing "8" = "2" := by
  have hgen : ∀ (figmaRgba : String → Option Rgba) (styles : StyleProperties)
      (tokens : DesignTokens) (sides : SpacingSides) (st : TwState),
      truthy styles.padding = true →
      findMatchingToken figmaRgba (optVal styles.padding) TokenType.spacing tokens = none →
      parseSpacingShorthand (optVal styles.padding) = some sides →
      sides.top = sides.right → sides.right = sides.bottom → sides.bottom = sides.left →
      twPadding figmaRgba styles tokens st =
        (st.1 ++ ["p-" ++ pxToTailwindSpacing sides.top], st.2) := by
    intro fr styles tokens sides st h1 h2 h3 h4 h5 h6
    unfold twPadding
    rw [if_pos h1, h2, h3]
    change (if (sides.top == sides.right && sides.right == sides.bottom &&
        sides.bottom == sides.left) = true then
        (st.1 ++ ["p-" ++ pxToTailwindSpacing sides.top], st.2)
      else
        (st.1 ++ ["pt-" ++ pxToTailwindSpacing sides.top,
                  "pr-" ++ pxToTailwindSpacing sides.right,
                  "pb-" ++ pxToTailwindSpacing sides.bottom,
                  "pl-" ++ pxToTailwindSpacing sides.left], st.2)) =
      (st.1 ++ ["p-" ++ pxToTailwindSpacing sides.top], st.2)
    rw [if_pos (show (sides.top == sides.right && sides.right == sides.bottom &&
        sides.bottom == sides.left) = true by rw [h4, h5, h6]; simp)]
  refine ⟨?_, hgen, by decide⟩
  intro fr tokens h
  have heq := hgen fr { padding := some "8px 8px 8px 8px" } tokens
    ⟨"8", "8", "8", "8"⟩ (([], {}) : TwState) (by decide) h (by decide) rfl rfl rfl
  show joinS (removeDuplicateAndConflictingClasses
    (twPadding fr { padding := some "8px 8px 8px 8px" } tokens
      (([], {}) : TwState)).1) = "p-2"
  rw [heq]
  decide

/-- C7 witness: with no tokens, the 8px record compiles to exactly "p-2",
and an all-4px shorthand appends the single class "p-1". -/
theorem stylesToTailwind_unified_padding_witness :
    stylesToTailwind (fun _ => none) { padding := some "8px 8px 8px 8px" } {} = "p-2" ∧
    twPadding (fun _ => none) { padding := some "4px 4px 4px 4px" } {}
      (["flex"], {}) = (["flex", "p-1"], {}) :=
  ⟨stylesToTailwind_unified_padding.1 (fun _ => none) {} (by decide),
   (stylesToTailwind_unified_padding.2.1 (fun _ => none)
      { padding := some "4px 4px 4px 4px" } {} ⟨"4", "4", "4", "4"⟩ (["flex"], {})
      (by decide) (by decide) (by decide) rfl rfl rfl).trans (by decide)⟩

end CompilerTheorems

end FigmaTailwind
